
import Mathlib

/-!
Verification of the reconciliation engine of the cardibot repository
(`src/sync.rs`, `src/config.rs`, `src/constants.rs`, `src/github.rs`).

Strings are modelled as `List Char`.  Rust's `regex` class `\d` is
Unicode-aware; on the ASCII titles the engine manipulates it coincides with
`Char.isDigit`, which is what the model uses.  Machine integers (`u64`) are
modelled as `Nat` with explicit `< 2^64` bounds at the points where the
source parses into `u64`.
-/
set_option maxHeartbeats 1000000
/-! ## Constants (`src/constants.rs`) -/

/-- `DISCORD_MESSAGE_FETCH_LIMIT: u8 = 50` — the bounded message window. -/
def DISCORD_MESSAGE_FETCH_LIMIT : Nat := 50

/-- `THREAD_PREFIXES: &[&str]` — the fixed marker set used by the sweep. -/
def THREAD_PREFIXES : List (List Char) :=
  ["[BUG]".data, "[FEATURE]".data, "[QUESTION]".data, "[FEEDBACK]".data]

/-- `MSG_ISSUE_CREATED` — embed title for a creation notification. -/
def MSG_ISSUE_CREATED : List Char := "GitHub Issue Created".data

/-- `MSG_ISSUE_UPDATED` — embed title for an update notification. -/
def MSG_ISSUE_UPDATED : List Char := "GitHub Issue Updated".data

/-- `MSG_ISSUE_CLOSED` — fixed closed-notification text. -/
def MSG_ISSUE_CLOSED : List Char := "🔒 Issue closed or merged on GitHub".data

/-- `MSG_ISSUE_REOPENED` — fixed reopened-notification text. -/
def MSG_ISSUE_REOPENED : List Char := "🔓 Issue reopened on GitHub".data

/-- The literal searched for inside embed descriptions (`sync.rs` line 262). -/
def GITHUB_URL_MARKER : List Char := "https://github.com/".data

/-! ## Identifier codec (`sync.rs::extract_thread_id`, `github.rs` line 43) -/

/-- Numeric value of an ASCII digit character. -/
def digitVal (c : Char) : Nat := c.toNat - 48

/-- Value of a big-endian ASCII digit string, as `u64::from_str` computes it
(modulo the overflow check, applied separately). -/
def digitsToNat (ds : List Char) : Nat :=
  ds.foldl (fun acc c => acc * 10 + digitVal c) 0

/-- `str::parse::<u64>` on a sign-free slice: succeeds exactly on nonempty
all-digit input whose value fits in 64 bits. -/
def parseDigits (s : List Char) : Option Nat :=
  if s ≠ [] ∧ s.all Char.isDigit then
    if digitsToNat s < 2 ^ 64 then some (digitsToNat s) else none
  else none

/-- `str::parse::<u64>`: an optional leading `+`, then digits. -/
def parse_u64 (s : List Char) : Option Nat :=
  match s with
  | [] => none
  | c :: rest => if c = '+' then parseDigits rest else parseDigits (c :: rest)

/-- The scalar-value ranges of the Unicode 15.0 `Nd` (decimal number)
category — what the `regex` crate's `\d` matches in its default Unicode
mode. -/
def ndRanges : List (Nat × Nat) :=
  [(0x30, 0x39), (0x660, 0x669), (0x6F0, 0x6F9), (0x7C0, 0x7C9),
    (0x966, 0x96F), (0x9E6, 0x9EF), (0xA66, 0xA6F), (0xAE6, 0xAEF),
    (0xB66, 0xB6F), (0xBE6, 0xBEF), (0xC66, 0xC6F), (0xCE6, 0xCEF),
    (0xD66, 0xD6F), (0xDE6, 0xDEF), (0xE50, 0xE59), (0xED0, 0xED9),
    (0xF20, 0xF29), (0x1040, 0x1049), (0x1090, 0x1099), (0x17E0, 0x17E9),
    (0x1810, 0x1819), (0x1946, 0x194F), (0x19D0, 0x19D9), (0x1A80, 0x1A89),
    (0x1A90, 0x1A99), (0x1B50, 0x1B59), (0x1BB0, 0x1BB9), (0x1C40, 0x1C49),
    (0x1C50, 0x1C59), (0xA620, 0xA629), (0xA8D0, 0xA8D9), (0xA900, 0xA909),
    (0xA9D0, 0xA9D9), (0xA9F0, 0xA9F9), (0xAA50, 0xAA59), (0xABF0, 0xABF9),
    (0xFF10, 0xFF19), (0x104A0, 0x104A9), (0x10D30, 0x10D39),
    (0x11066, 0x1106F), (0x110F0, 0x110F9), (0x11136, 0x1113F),
    (0x111D0, 0x111D9), (0x112F0, 0x112F9), (0x11450, 0x11459),
    (0x114D0, 0x114D9), (0x11650, 0x11659), (0x116C0, 0x116C9),
    (0x11730, 0x11739), (0x118E0, 0x118E9), (0x11950, 0x11959),
    (0x11C50, 0x11C59), (0x11D50, 0x11D59), (0x11DA0, 0x11DA9),
    (0x11F50, 0x11F59), (0x16A60, 0x16A69), (0x16AC0, 0x16AC9),
    (0x16B50, 0x16B59), (0x1D7CE, 0x1D7FF), (0x1E140, 0x1E149),
    (0x1E2F0, 0x1E2F9), (0x1E4F0, 0x1E4F9), (0x1E950, 0x1E959),
    (0x1FBF0, 0x1FBF9)]

/-- Unicode decimal digit (`\p{Nd}`): the class the regex `\d` matches.
This properly contains the ASCII digits `Char.isDigit`. -/
def isNd (c : Char) : Bool :=
  ndRanges.any fun r => decide (r.1 ≤ c.toNat ∧ c.toNat ≤ r.2)

/-- The capture of the first (leftmost) match of `\[(p+)\]` for a digit
class `p`: scan left to right; at a `[` take the maximal `p`-run; match
only if it is nonempty and followed by `]`; otherwise resume the scan one
position later. -/
def firstBracketNumP (p : Char → Bool) : List Char → Option (List Char)
  | [] => none
  | c :: rest =>
    if c = '[' then
      if rest.takeWhile p ≠ [] ∧
          (rest.dropWhile p).head? = some ']' then
        some (rest.takeWhile p)
      else firstBracketNumP p rest
    else firstBracketNumP p rest

/-- The capture of the first (leftmost) match of the regex `\[(\d+)\]`,
with `\d` the Unicode digit class. -/
def firstBracketNum (t : List Char) : Option (List Char) :=
  firstBracketNumP isNd t

/-- `sync.rs::extract_thread_id`: first `\[(\d+)\]` capture parsed as
`u64` (the parse accepts only ASCII digits, so a non-ASCII capture yields
`None`). -/
def extract_thread_id (title : List Char) : Option Nat :=
  match firstBracketNum title with
  | some ds => parse_u64 ds
  | none => none

/-- Decimal rendering of a `u64`, as `format!("{}")` produces it. -/
def natToDigits (n : Nat) : List Char :=
  if _h : n < 10 then [Nat.digitChar n]
  else natToDigits (n / 10) ++ [Nat.digitChar (n % 10)]
  decreasing_by exact Nat.div_lt_self (by omega) (by omega)

/-- `github.rs` line 43: `format!("{} [{}]", original_title, thread.id)`. -/
def encodeTitle (originalTitle : List Char) (threadId : Nat) : List Char :=
  originalTitle ++ ' ' :: '[' :: (natToDigits threadId ++ [']'])

/-- A complete bracketed `p`-digit run somewhere in a title. -/
def HasBracketRunP (p : Char → Bool) (t : List Char) : Prop :=
  ∃ pre ds post, t = pre ++ '[' :: (ds ++ ']' :: post) ∧ ds ≠ [] ∧
    ds.all p = true

/-- A complete bracketed Unicode-digit (`\d`) run somewhere in a title. -/
def HasBracketRun (t : List Char) : Prop :=
  HasBracketRunP isNd t

/-- A complete bracketed ASCII-digit run somewhere in a title. -/
def HasAsciiBracketRun (t : List Char) : Prop :=
  HasBracketRunP Char.isDigit t

/-! ## Sync configuration (`src/config.rs`) -/

/-- `config.rs::default_sync_enabled`. -/
def default_sync_enabled : Bool := true

/-- `config.rs::default_sync_interval` (the source returns `10`). -/
def default_sync_interval : Nat := 10

/-- `config.rs::default_sync_prefixes`. -/
def default_sync_prefixes : List (List Char) :=
  ["[BUG]".data, "[FEATURE]".data, "[QUESTION]".data]

/-- `config.rs::SyncConfig` after deserialization. -/
structure SyncConfig where
  enabled : Bool
  interval_seconds : Nat
  thread_prefixes : List (List Char)
deriving DecidableEq, Repr

/-- A raw `[sync]` TOML section: each field possibly absent. -/
structure SyncConfigRaw where
  enabled : Option Bool
  interval_seconds : Option Nat
  thread_prefixes : Option (List (List Char))

/-- Serde field defaults: `#[serde(default = "default_sync_*")]` on each
field of `SyncConfig`. -/
def SyncConfig.ofRaw (r : SyncConfigRaw) : SyncConfig :=
  { enabled := r.enabled.getD default_sync_enabled
    interval_seconds := r.interval_seconds.getD default_sync_interval
    thread_prefixes := r.thread_prefixes.getD default_sync_prefixes }

/-- The parts of `config.rs::Config` the syncer reads. -/
structure Config where
  sync : Option SyncConfig

/-- `config.rs::Config::sync_config`. -/
def Config.sync_config (c : Config) : SyncConfig :=
  c.sync.getD
    { enabled := default_sync_enabled
      interval_seconds := default_sync_interval
      thread_prefixes := default_sync_prefixes }

/-! ## Reconciler data model (`src/sync.rs`)

External state observed and mutated during one cycle.  Transport failures
are injected through the `Failures` record; the Discord/GitHub effects of
the two corrective calls (`send_message`, `edit_thread`) are recorded as
`Event`s and applied to the world immediately, as the live services would
apply them. -/

/-- GitHub issue lifecycle state. -/
inductive IssueState where
  | opened
  | closed
deriving DecidableEq, Repr

/-- A tracker search result row: number and title are all the syncer reads. -/
structure Issue where
  number : Nat
  title : List Char
deriving DecidableEq, Repr

/-- Discord `ThreadMetadata`: the two flags the syncer reads and writes. -/
structure ThreadMeta where
  locked : Bool
  archived : Bool
deriving DecidableEq, Repr

/-- The channel kinds the open-issue pass distinguishes. -/
inductive ChannelKind where
  | publicThread
  | other
deriving DecidableEq, Repr

/-- A guild channel as `sync_open_issue` inspects it. -/
structure GuildChannel where
  kind : ChannelKind
  thread_metadata : Option ThreadMeta
deriving DecidableEq, Repr

/-- `metadata.map(|m| m.locked).unwrap_or(false)`. -/
def GuildChannel.isLocked (gc : GuildChannel) : Bool :=
  (gc.thread_metadata.map ThreadMeta.locked).getD false

/-- `metadata.map(|m| m.archived).unwrap_or(false)`. -/
def GuildChannel.isArchived (gc : GuildChannel) : Bool :=
  (gc.thread_metadata.map ThreadMeta.archived).getD false

/-- An entry of `guild_id.get_active_threads(..)`. -/
structure ThreadRec where
  id : Nat
  parent_id : Option Nat
  name : List Char
  thread_metadata : Option ThreadMeta
deriving DecidableEq, Repr

/-- `metadata.map(|m| m.locked).unwrap_or(false)` on an active-thread row. -/
def ThreadRec.isLocked (t : ThreadRec) : Bool :=
  (t.thread_metadata.map ThreadMeta.locked).getD false

/-- `metadata.map(|m| m.archived).unwrap_or(false)` on an active-thread row. -/
def ThreadRec.isArchived (t : ThreadRec) : Bool :=
  (t.thread_metadata.map ThreadMeta.archived).getD false

/-- An embed of a fetched message: title and description. -/
structure Embed where
  title : Option (List Char)
  description : Option (List Char)
deriving DecidableEq, Repr

/-- A fetched message: bot flag, embeds, plain content. -/
structure Message where
  authorBot : Bool
  embeds : List Embed
  content : List Char
deriving DecidableEq, Repr

/-- A corrective call into Discord. -/
inductive Event where
  | send (threadId : Nat) (content : List Char)
  | edit (threadId : Nat) (locked : Bool) (archived : Bool)
deriving DecidableEq, Repr

/-- The thread a corrective call targets. -/
def Event.threadId : Event → Nat
  | .send i _ => i
  | .edit i _ _ => i

/-- Injected transport failures, each keyed by the id the call targets. -/
structure Failures where
  searchFail : Bool
  activeFail : Bool
  msgsFail : Nat → Bool
  sendFail : Nat → Bool
  editFail : Nat → Bool
  issueFail : Nat → Bool

/-- The failure-free environment. -/
def Failures.noFail : Failures :=
  { searchFail := false
    activeFail := false
    msgsFail := fun _ => false
    sendFail := fun _ => false
    editFail := fun _ => false
    issueFail := fun _ => false }

/-- A snapshot of the external systems during one cycle.
`channels i = none` models a failing `get_channel` (including not-found);
`channels i = some none` a channel that is not a guild channel;
`msgs i` is what `messages(..limit(50))` returns for thread `i`;
`issueState n` is the state a successful `issues().get(n)` reports. -/
structure World where
  openIssues : List Issue
  channels : Nat → Option (Option GuildChannel)
  activeThreads : List ThreadRec
  msgs : Nat → List Message
  issueState : Nat → IssueState
  fail : Failures

/-- Effect of a corrective call on the external state: a send prepends a
bot-authored embed-free message to the thread's window; an edit rewrites the
thread's metadata in both API views. -/
def applyEvent (w : World) (e : Event) : World :=
  match e with
  | .send tid c =>
    { w with msgs := fun i =>
        if i = tid then ⟨true, [], c⟩ :: w.msgs i else w.msgs i }
  | .edit tid l a =>
    { w with
      channels := fun i =>
        if i = tid then
          match w.channels i with
          | some (some gc) => some (some { gc with thread_metadata := some ⟨l, a⟩ })
          | x => x
        else w.channels i
      activeThreads := w.activeThreads.map fun t =>
        if t.id = tid then { t with thread_metadata := some ⟨l, a⟩ } else t }

/-- The project configuration fields the syncer reads. -/
structure Project where
  discord_guild_id : List Char
  discord_forum_id : List Char

/-! ## The reconciliation cycle (`sync.rs`) -/

/-- `search_issues`: the tracker search filtered to decodable titles
(lines 140–143). -/
def searchOpenIssues (w : World) : List Issue :=
  w.openIssues.filter fun i => (extract_thread_id i.title).isSome

/-- `open_thread_ids` (lines 83–86). -/
def openIdsOf (w : World) : List Nat :=
  (searchOpenIssues w).filterMap fun i => extract_thread_id i.title

/-- `sync_open_issue` (lines 148–199): guild-id parse, channel fetch, and
the Reopen corrective action.  Returns the mutated world, the corrective
calls made, and `Ok(thread_exists)` or the propagated error. -/
def syncOpenIssue (p : Project) (w : World) (tid : Nat) :
    World × List Event × Except Unit Bool :=
  match parse_u64 p.discord_guild_id with
  | none => (w, [], .error ())
  | some _ =>
    match w.channels tid with
    | none => (w, [], .ok false)
    | some ch =>
      match ch with
      | none => (w, [], .ok true)
      | some thread =>
        if thread.kind = ChannelKind.publicThread then
          if thread.isLocked || thread.isArchived then
            if w.fail.sendFail tid then (w, [], .error ())
            else
              let w1 := applyEvent w (.send tid MSG_ISSUE_REOPENED)
              if w.fail.editFail tid then
                (w1, [.send tid MSG_ISSUE_REOPENED], .error ())
              else
                (applyEvent w1 (.edit tid false false),
                  [.send tid MSG_ISSUE_REOPENED, .edit tid false false],
                  .ok true)
          else (w, [], .ok true)
        else (w, [], .ok true)

/-- The per-issue loop of `sync_project` (lines 93–104): every issue is
processed; a per-issue error is logged and swallowed. -/
def syncOpenPass (p : Project) : World → List Issue → World × List Event
  | w, [] => (w, [])
  | w, issue :: rest =>
    match extract_thread_id issue.title with
    | some tid =>
      let r := syncOpenIssue p w tid
      let rr := syncOpenPass p r.1 rest
      (rr.1, r.2.1 ++ rr.2)
    | none => syncOpenPass p w rest

/-- URL extraction from an embed description (lines 262–268):
`desc.find("https://github.com/")`, then cut at the first whitespace. -/
def findSub (pat : List Char) : List Char → Option Nat
  | [] => if pat = [] then some 0 else none
  | c :: rest =>
    if pat.isPrefixOf (c :: rest) then some 0
    else (findSub pat rest).map (· + 1)

/-- `char::is_whitespace`: the Unicode `White_Space` property. -/
def rustIsWhitespace (c : Char) : Bool :=
  [0x9, 0xA, 0xB, 0xC, 0xD, 0x20, 0x85, 0xA0, 0x1680, 0x2000, 0x2001,
    0x2002, 0x2003, 0x2004, 0x2005, 0x2006, 0x2007, 0x2008, 0x2009, 0x200A,
    0x2028, 0x2029, 0x202F, 0x205F, 0x3000].contains c.toNat

/-- Index of the first whitespace character. -/
def firstWsIdx : List Char → Option Nat
  | [] => none
  | c :: rest =>
    if rustIsWhitespace c then some 0 else (firstWsIdx rest).map (· + 1)

/-- `desc[url_start..]` cut at the first whitespace (lines 262–268). -/
def extractUrl (desc : List Char) : Option (List Char) :=
  match findSub GITHUB_URL_MARKER desc with
  | none => none
  | some i =>
    let urlPart := desc.drop i
    match firstWsIdx urlPart with
    | some e => some (urlPart.take e)
    | none => some urlPart

/-- The embed loop (lines 257–274): first embed titled with the created or
updated marker whose description yields a URL wins, then `break`. -/
def scanEmbeds : List Embed → Option (List Char)
  | [] => none
  | e :: es =>
    if e.title = some MSG_ISSUE_CREATED ∨ e.title = some MSG_ISSUE_UPDATED then
      match e.description with
      | some d =>
        match extractUrl d with
        | some u => some u
        | none => scanEmbeds es
      | none => scanEmbeds es
    else scanEmbeds es

/-- The message loop (lines 255–276): `github_issue_url` is overwritten by
each bot message whose embeds yield a URL, so the last hit in fetch order
stands. -/
def scanMessages (msgs : List Message) : Option (List Char) :=
  msgs.foldl
    (fun acc m =>
      if m.authorBot then
        match scanEmbeds m.embeds with
        | some u => some u
        | none => acc
      else acc)
    none

/-- `str::split('/')`. -/
def splitSlash : List Char → List (List Char)
  | [] => [[]]
  | c :: rest =>
    if c = '/' then [] :: splitSlash rest
    else
      match splitSlash rest with
      | seg :: segs => (c :: seg) :: segs
      | [] => [[c]]

/-- The body of the active-thread loop (lines 215–314): the guard chain,
discovery, the fresh issue lookup, and the Close corrective action.
`.error` is a `?`-propagated failure that aborts the surrounding sweep. -/
def sweepThread (w : World) (forumId : Nat) (openIds : List Nat)
    (t : ThreadRec) : World × List Event × Except Unit Unit :=
  if t.parent_id ≠ some forumId then (w, [], .ok ())
  else if ¬ (THREAD_PREFIXES.any fun pre => pre.isPrefixOf t.name) then
    (w, [], .ok ())
  else if t.isArchived || t.isLocked then (w, [], .ok ())
  else if openIds.contains t.id then (w, [], .ok ())
  else if w.fail.msgsFail t.id then (w, [], .error ())
  else
    match scanMessages (w.msgs t.id) with
    | none => (w, [], .ok ())
    | some url =>
      match (splitSlash url).getLast? with
      | none => (w, [], .ok ())
      | some seg =>
        match parse_u64 seg with
        | none => (w, [], .ok ())
        | some n =>
          if w.fail.issueFail n then (w, [], .ok ())
          else if w.issueState n = IssueState.closed then
            if w.fail.sendFail t.id then (w, [], .error ())
            else
              let w1 := applyEvent w (.send t.id MSG_ISSUE_CLOSED)
              if w.fail.editFail t.id then
                (w1, [.send t.id MSG_ISSUE_CLOSED], .error ())
              else
                (applyEvent w1 (.edit t.id true true),
                  [.send t.id MSG_ISSUE_CLOSED, .edit t.id true true],
                  .ok ())
          else (w, [], .ok ())

/-- The `for thread in active_threads.threads` loop: a `?`-propagated
failure aborts the remaining iterations. -/
def sweepGo (forumId : Nat) (openIds : List Nat) :
    World → List ThreadRec → World × List Event × Except Unit Unit
  | w, [] => (w, [], .ok ())
  | w, t :: ts =>
    let r := sweepThread w forumId openIds t
    match r.2.2 with
    | .error e => (r.1, r.2.1, .error e)
    | .ok _ =>
      let rest := sweepGo forumId openIds r.1 ts
      (rest.1, r.2.1 ++ rest.2.1, rest.2.2)

/-- `sync_discord_threads` (lines 201–318): id parses, the active-thread
fetch, then the sweep over the fetched snapshot. -/
def syncDiscordThreads (p : Project) (w : World) (openIds : List Nat) :
    World × List Event × Except Unit Unit :=
  match parse_u64 p.discord_guild_id with
  | none => (w, [], .error ())
  | some _ =>
    match parse_u64 p.discord_forum_id with
    | none => (w, [], .error ())
    | some forumId =>
      if w.fail.activeFail then (w, [], .error ())
      else sweepGo forumId openIds w w.activeThreads

/-- `sync_project` (lines 69–119): search, the open-issue pass, then the
thread sweep whose error is caught and logged. -/
def syncProject (p : Project) (w : World) :
    World × List Event × Except Unit Unit :=
  if w.fail.searchFail then (w, [], .error ())
  else
    let issues := searchOpenIssues w
    let openIds := issues.filterMap fun i => extract_thread_id i.title
    let op := syncOpenPass p w issues
    let sw := syncDiscordThreads p op.1 openIds
    (sw.1, op.2 ++ sw.2.1, .ok ())

/-- `sync_all_projects` (lines 54–67): each project's cycle runs in turn;
a per-project error is logged and swallowed, never aborting the loop. -/
def syncAllProjects (w : World) : List Project → World × List Event
  | [] => (w, [])
  | p :: ps =>
    let r := syncProject p w
    let rest := syncAllProjects r.1 ps
    (rest.1, r.2.1 ++ rest.2)

/-! ## Decision abstractions

`reopenDecision` is the guard of the Reopen action as `sync_open_issue`
evaluates it; `sweepDecision` is the guard chain of the Close action as the
active-thread loop evaluates it, returning the discovered closed issue
number.  Both are read off the corresponding definitions above. -/

/-- The thread states on which `sync_open_issue` mutates: channel found,
public thread, locked or archived. -/
def reopenDecision (w : World) (tid : Nat) : Bool :=
  match w.channels tid with
  | some (some gc) =>
    if gc.kind = ChannelKind.publicThread then gc.isLocked || gc.isArchived
    else false
  | _ => false

/-- The discovered closed-issue number on which the sweep closes a thread,
`none` when any guard of the chain rejects. -/
def sweepDecision (w : World) (forumId : Nat) (openIds : List Nat)
    (t : ThreadRec) : Option Nat :=
  if t.parent_id ≠ some forumId then none
  else if ¬ (THREAD_PREFIXES.any fun pre => pre.isPrefixOf t.name) then none
  else if t.isArchived || t.isLocked then none
  else if openIds.contains t.id then none
  else
    match scanMessages (w.msgs t.id) with
    | none => none
    | some url =>
      match (splitSlash url).getLast? with
      | none => none
      | some seg =>
        match parse_u64 seg with
        | none => none
        | some n => if w.issueState n = IssueState.closed then some n else none

/-- All active-thread rows with a given id are archived and locked. -/
def ArchivedAll (w : World) (i : Nat) : Prop :=
  ∀ t' ∈ w.activeThreads, t'.id = i → t'.thread_metadata = some ⟨true, true⟩

def projectA : Project := ⟨"1".data, "2".data⟩

def gcLockedArchived : GuildChannel :=
  ⟨ChannelKind.publicThread, some ⟨true, true⟩⟩

def issueA : Issue := ⟨1, "Bug [7]".data⟩

def wC1 : World :=
  { openIssues := [issueA]
    channels := fun i => if i = 7 then some (some gcLockedArchived) else none
    activeThreads := []
    msgs := fun _ => []
    issueState := fun _ => .opened
    fail := Failures.noFail }

def embedA : Embed :=
  ⟨some MSG_ISSUE_CREATED, some "see https://github.com/o/r/issues/42".data⟩

def msgA : Message := ⟨true, [embedA], []⟩

def threadA : ThreadRec := ⟨9, some 2, "[BUG] crash".data, some ⟨false, false⟩⟩

def wC2 : World :=
  { openIssues := []
    channels := fun _ => none
    activeThreads := [threadA]
    msgs := fun i => if i = 9 then [msgA] else []
    issueState := fun _ => .closed
    fail := Failures.noFail }

def wC6 : World :=
  { openIssues := [issueA]
    channels := fun i => if i = 7 then some (some gcLockedArchived) else none
    activeThreads := [threadA]
    msgs := fun i => if i = 9 then [msgA] else []
    issueState := fun _ => .closed
    fail := Failures.noFail }

def gcNoMeta : GuildChannel := ⟨ChannelKind.publicThread, none⟩

def threadNoMeta : ThreadRec := ⟨9, some 2, "[BUG] crash".data, none⟩

def wC10 : World :=
  { openIssues := []
    channels := fun i => if i = 3 then some (some gcNoMeta) else none
    activeThreads := [threadNoMeta]
    msgs := fun i => if i = 9 then [msgA] else []
    issueState := fun _ => .closed
    fail := Failures.noFail }

/-! ## C5: duplicate open tickets sharing one embedded id -/

def wC5 : World :=
  { openIssues := [⟨2, "A [5]".data⟩, ⟨3, "B [5]".data⟩]
    channels := fun i => if i = 5 then some (some gcLockedArchived) else none
    activeThreads := []
    msgs := fun _ => []
    issueState := fun _ => .opened
    fail := Failures.noFail }

/-! ## C7: per-thread failure isolation -/

def threadB : ThreadRec := ⟨8, some 2, "[BUG] a".data, some ⟨false, false⟩⟩

def embedB : Embed :=
  ⟨some MSG_ISSUE_CREATED, some "see https://github.com/o/r/issues/41".data⟩

def msgB : Message := ⟨true, [embedB], []⟩

def wC7a : World :=
  { openIssues := [⟨1, "A [5]".data⟩, ⟨2, "B [6]".data⟩]
    channels := fun i =>
      if i = 5 ∨ i = 6 then some (some gcLockedArchived) else none
    activeThreads := []
    msgs := fun _ => []
    issueState := fun _ => .opened
    fail := { Failures.noFail with sendFail := fun i => i == 5 } }

def wC7b : World :=
  { openIssues := []
    channels := fun _ => none
    activeThreads := [threadB, threadA]
    msgs := fun i => if i = 8 then [msgB] else if i = 9 then [msgA] else []
    issueState := fun _ => .closed
    fail := { Failures.noFail with issueFail := fun n => n == 41 } }

def wC7c : World :=
  { wC7b with fail := { Failures.noFail with msgsFail := fun i => i == 8 } }

def wC7d : World := { wC7b with fail := Failures.noFail }

def wC7e : World :=
  { wC7b with fail := { Failures.noFail with sendFail := fun i => i == 8 } }

def wC7f : World :=
  { wC7b with fail := { Failures.noFail with editFail := fun i => i == 8 } }

/-! ## C8: which prefixes the sweep recognizes -/

def threadF : ThreadRec :=
  ⟨9, some 2, "[FEEDBACK] hi".data, some ⟨false, false⟩⟩

def wC8 : World :=
  { openIssues := []
    channels := fun _ => none
    activeThreads := [threadF]
    msgs := fun i => if i = 9 then [msgA] else []
    issueState := fun _ => .closed
    fail := Failures.noFail }

def threadPlain : ThreadRec := ⟨4, some 2, "general chat".data, none⟩

/-! ## Codec lemmas -/

theorem takeWhile_all_append (p : Char → Bool) (a : List Char) (x : Char)
    (b : List Char) (ha : a.all p = true) (hx : p x = false) :
    (a ++ x :: b).takeWhile p = a ∧ (a ++ x :: b).dropWhile p = x :: b := by
  induction a with
  | nil => simp [List.takeWhile_cons, List.dropWhile_cons, hx]
  | cons c cs ih =>
    simp only [List.all_cons, Bool.and_eq_true] at ha
    obtain ⟨h1, h2⟩ := ha
    obtain ⟨ih1, ih2⟩ := ih h2
    constructor
    · simpa [List.takeWhile_cons, h1] using ih1
    · simpa [List.dropWhile_cons, h1] using ih2

theorem takeWhile_not_all_append (p : Char → Bool) (a b : List Char)
    (ha : ¬ a.all p = true) :
    (a ++ b).takeWhile p = a.takeWhile p ∧
      (a ++ b).dropWhile p = a.dropWhile p ++ b := by
  induction a with
  | nil => simp at ha
  | cons c cs ih =>
    by_cases h1 : p c
    · have h2 : ¬ cs.all p = true := by
        intro hall; exact ha (by simp [List.all_cons, h1, hall])
      obtain ⟨ih1, ih2⟩ := ih h2
      constructor
      · simpa [List.takeWhile_cons, h1] using ih1
      · simpa [List.dropWhile_cons, h1] using ih2
    · simp [List.takeWhile_cons, List.dropWhile_cons, h1]

theorem takeWhile_all_self (p : Char → Bool) (l : List Char) :
    (l.takeWhile p).all p = true := by
  induction l with
  | nil => simp
  | cons c cs ih =>
    by_cases h1 : p c
    · simp [List.takeWhile_cons, h1, ih]
    · simp [List.takeWhile_cons, h1]

theorem digitChar_spec (d : Nat) (h : d < 10) :
    (Nat.digitChar d).isDigit = true ∧ isNd (Nat.digitChar d) = true ∧
      digitVal (Nat.digitChar d) = d := by
  interval_cases d <;> exact ⟨by decide, by decide, by decide⟩

theorem digitsToNat_append_one (xs : List Char) (c : Char) :
    digitsToNat (xs ++ [c]) = 10 * digitsToNat xs + digitVal c := by
  unfold digitsToNat
  rw [List.foldl_append]
  simp [Nat.mul_comm]

theorem natToDigits_spec (n : Nat) :
    natToDigits n ≠ [] ∧ (natToDigits n).all Char.isDigit = true ∧
      (natToDigits n).all isNd = true ∧ digitsToNat (natToDigits n) = n := by
  induction n using Nat.strong_induction_on with
  | _ n ih =>
    by_cases h : n < 10
    · rw [natToDigits, dif_pos h]
      obtain ⟨hd, hnd, hv⟩ := digitChar_spec n h
      refine ⟨by simp, by simp [hd], by simp [hnd], ?_⟩
      simp [digitsToNat, digitVal] at hv ⊢
      omega
    · rw [natToDigits, dif_neg h]
      have hlt : n / 10 < n := Nat.div_lt_self (by omega) (by omega)
      obtain ⟨ih1, ih2, ih3, ih4⟩ := ih (n / 10) hlt
      have hm : n % 10 < 10 := Nat.mod_lt _ (by omega)
      obtain ⟨hd, hnd, hv⟩ := digitChar_spec (n % 10) hm
      refine ⟨by simp, ?_, ?_, ?_⟩
      · simp only [List.all_append, List.all_cons, List.all_nil,
          Bool.and_eq_true] at ih2 ⊢
        exact ⟨ih2, hd, trivial⟩
      · simp only [List.all_append, List.all_cons, List.all_nil,
          Bool.and_eq_true] at ih3 ⊢
        exact ⟨ih3, hnd, trivial⟩
      · rw [digitsToNat_append_one, ih4, hv]
        omega

/-- If the scan for digit class `p` finds no match, no complete bracketed
`p`-run exists. -/
theorem fbn_none_no_run (p : Char → Bool) (hbr : p ']' = false)
    (t : List Char) (h : firstBracketNumP p t = none) :
    ¬ HasBracketRunP p t := by
  induction t with
  | nil =>
    rintro ⟨pre, ds, post, ht, _, _⟩
    cases pre <;> simp at ht
  | cons c rest ih =>
    rintro ⟨pre, ds, post, ht, hne, hdig⟩
    rw [firstBracketNumP] at h
    by_cases hc : c = '['
    · rw [if_pos hc] at h
      by_cases hg : rest.takeWhile p ≠ [] ∧
          (rest.dropWhile p).head? = some ']'
      · rw [if_pos hg] at h; exact absurd h (by simp)
      · rw [if_neg hg] at h
        cases pre with
        | nil =>
          simp only [List.nil_append, List.cons.injEq] at ht
          apply hg
          obtain ⟨tw, dw⟩ :=
            takeWhile_all_append p ds ']' post hdig hbr
          rw [ht.2, tw, dw]
          exact ⟨hne, rfl⟩
        | cons q qs =>
          simp only [List.cons_append, List.cons.injEq] at ht
          exact ih h ⟨qs, ds, post, ht.2, hne, hdig⟩
    · rw [if_neg hc] at h
      cases pre with
      | nil =>
        simp only [List.nil_append, List.cons.injEq] at ht
        exact hc ht.1
      | cons q qs =>
        simp only [List.cons_append, List.cons.injEq] at ht
        exact ih h ⟨qs, ds, post, ht.2, hne, hdig⟩

/-- Appending `" [<digits>]"` to a run-free title makes the scan find
exactly those digits. -/
theorem fbn_suffix (p : Char → Bool) (hbr : p ']' = false)
    (hsp : p ' ' = false) (t ds : List Char)
    (h : firstBracketNumP p t = none)
    (hne : ds ≠ []) (hdig : ds.all p = true) :
    firstBracketNumP p (t ++ ' ' :: '[' :: (ds ++ [']'])) = some ds := by
  induction t with
  | nil =>
    rw [List.nil_append, firstBracketNumP, if_neg (by decide),
      firstBracketNumP, if_pos rfl]
    obtain ⟨tw, dw⟩ :=
      takeWhile_all_append p ds ']' [] hdig hbr
    rw [if_pos ⟨by rw [tw]; exact hne, by rw [dw]; rfl⟩, tw]
  | cons c rest ih =>
    rw [firstBracketNumP] at h
    rw [List.cons_append, firstBracketNumP]
    by_cases hc : c = '['
    · rw [if_pos hc] at h ⊢
      by_cases hg : rest.takeWhile p ≠ [] ∧
          (rest.dropWhile p).head? = some ']'
      · rw [if_pos hg] at h; exact absurd h (by simp)
      · rw [if_neg hg] at h
        by_cases hall : rest.all p = true
        · obtain ⟨tw, dw⟩ := takeWhile_all_append p rest ' '
            ('[' :: (ds ++ [']'])) hall hsp
          rw [if_neg (by rw [tw, dw]; rintro ⟨-, hh⟩; simp at hh)]
          exact ih h
        · obtain ⟨tw, dw⟩ :=
            takeWhile_not_all_append p rest
              (' ' :: '[' :: (ds ++ [']'])) hall
          have hdw : rest.dropWhile p ≠ [] := by
            intro hnil
            exact hall (List.all_eq_true.mpr (List.dropWhile_eq_nil_iff.mp hnil))
          rw [if_neg ?_]
          · exact ih h
          · rw [tw, dw]
            rintro ⟨htw, hh⟩
            apply hg
            refine ⟨htw, ?_⟩
            obtain ⟨x, xs, hx⟩ := List.exists_cons_of_ne_nil hdw
            rw [hx] at hh ⊢
            simpa using hh
    · rw [if_neg hc] at h ⊢
      exact ih h

/-- A found capture is a leftmost complete bracketed `p`-run. -/
theorem fbn_some_spec (p : Char → Bool) (hbr : p ']' = false)
    (t ds : List Char) (h : firstBracketNumP p t = some ds) :
    ds ≠ [] ∧ ds.all p = true ∧
      ∃ pre post, t = pre ++ '[' :: (ds ++ ']' :: post) ∧
        ∀ pre' ds' post', t = pre' ++ '[' :: (ds' ++ ']' :: post') →
          ds' ≠ [] → ds'.all p = true →
          pre.length ≤ pre'.length := by
  induction t with
  | nil => simp [firstBracketNumP] at h
  | cons c rest ih =>
    rw [firstBracketNumP] at h
    by_cases hc : c = '['
    · rw [if_pos hc] at h
      by_cases hg : rest.takeWhile p ≠ [] ∧
          (rest.dropWhile p).head? = some ']'
      · rw [if_pos hg] at h
        obtain ⟨hne0, hh⟩ := hg
        have hds : ds = rest.takeWhile p := by
          simpa using h.symm
        subst hds hc
        refine ⟨hne0, takeWhile_all_self _ _, [], ?_⟩
        obtain ⟨x, xs, hx⟩ :=
          List.exists_cons_of_ne_nil
            (l := rest.dropWhile p)
            (by intro hnil; rw [hnil] at hh; simp at hh)
        have hx2 : x = ']' := by rw [hx] at hh; simpa using hh
        refine ⟨xs, ?_, fun pre' _ _ _ _ _ => Nat.zero_le _⟩
        have := List.takeWhile_append_dropWhile
          (p := p) (l := rest)
        rw [hx, hx2] at this
        simp only [List.nil_append]
        rw [this]
      · rw [if_neg hg] at h
        obtain ⟨hne, hdig, pre0, post0, hdec, hmin⟩ := ih h
        refine ⟨hne, hdig, c :: pre0, post0, by simp [hdec], ?_⟩
        rintro pre' ds' post' ht hne' hdig'
        cases pre' with
        | nil =>
          exfalso
          simp only [List.nil_append, List.cons.injEq] at ht
          apply hg
          obtain ⟨tw, dw⟩ :=
            takeWhile_all_append p ds' ']' post' hdig' hbr
          rw [ht.2, tw, dw]
          exact ⟨hne', rfl⟩
        | cons q qs =>
          simp only [List.cons_append, List.cons.injEq] at ht
          have := hmin qs ds' post' ht.2 hne' hdig'
          simpa using Nat.succ_le_succ this
    · rw [if_neg hc] at h
      obtain ⟨hne, hdig, pre0, post0, hdec, hmin⟩ := ih h
      refine ⟨hne, hdig, c :: pre0, post0, by simp [hdec], ?_⟩
      rintro pre' ds' post' ht hne' hdig'
      cases pre' with
      | nil =>
        simp only [List.nil_append, List.cons.injEq] at ht
        exact absurd ht.1 hc
      | cons q qs =>
        simp only [List.cons_append, List.cons.injEq] at ht
        have := hmin qs ds' post' ht.2 hne' hdig'
        simpa using Nat.succ_le_succ this

/-- On a nonempty all-ASCII-digit capture, `parse::<u64>` is the checked
value. -/
theorem parse_u64_digits (ds : List Char) (hne : ds ≠ [])
    (hdig : ds.all Char.isDigit = true) :
    parse_u64 ds =
      if digitsToNat ds < 2 ^ 64 then some (digitsToNat ds) else none := by
  have hpd : parseDigits ds =
      if digitsToNat ds < 2 ^ 64 then some (digitsToNat ds) else none := by
    rw [parseDigits, if_pos ⟨hne, hdig⟩]
  cases ds with
  | nil => exact absurd rfl hne
  | cons c cs =>
    have hc : c.isDigit = true := by
      simp only [List.all_cons, Bool.and_eq_true] at hdig
      exact hdig.1
    have hcne : ¬ c = '+' := by
      intro hh; rw [hh] at hc; exact absurd hc (by decide)
    rw [parse_u64, if_neg hcne]
    exact hpd

/-- On a nonempty Unicode-digit capture, `parse::<u64>` succeeds exactly
when the capture is all ASCII and fits in 64 bits. -/
theorem parse_u64_nd (ds : List Char) (hne : ds ≠ [])
    (hnd : ds.all isNd = true) :
    parse_u64 ds =
      if ds.all Char.isDigit = true then
        (if digitsToNat ds < 2 ^ 64 then some (digitsToNat ds) else none)
      else none := by
  cases ds with
  | nil => exact absurd rfl hne
  | cons c cs =>
    have hc : isNd c = true := by
      simp only [List.all_cons, Bool.and_eq_true] at hnd
      exact hnd.1
    have hcne : ¬ c = '+' := by
      intro hh; rw [hh] at hc; exact absurd hc (by decide)
    rw [parse_u64, if_neg hcne, parseDigits]
    by_cases hall : (c :: cs).all Char.isDigit = true
    · rw [if_pos ⟨hne, hall⟩, if_pos hall]
    · rw [if_neg (fun hconj => hall hconj.2), if_neg hall]

theorem fbn_none_of_no_run (p : Char → Bool) (hbr : p ']' = false)
    (t : List Char) (ht : ¬ HasBracketRunP p t) :
    firstBracketNumP p t = none := by
  cases h : firstBracketNumP p t with
  | none => rfl
  | some ds =>
    obtain ⟨hne, hdig, pre, post, hdec, -⟩ := fbn_some_spec p hbr t ds h
    exact absurd ⟨pre, ds, post, hdec, hne, hdig⟩ ht

/-- C3 counterexample: a human title carrying a bracketed NON-ASCII digit
run — `٢` is the Arabic-Indic two, matched by the regex `\d` but rejected
by `parse::<u64>`.  The title contains no bracketed ASCII-digit run, yet
`decode(encode(42))` is not `some 42`: the regex matches the Unicode run
first and the parse fails, so the program returns `None`. -/
theorem extract_encode_roundtrip_cex :
    ¬ HasAsciiBracketRun "hi [٢]".data ∧
    extract_thread_id (encodeTitle "hi [٢]".data 42) = none ∧
    ¬ extract_thread_id (encodeTitle "hi [٢]".data 42) = some 42 := by
  have h42 : natToDigits 42 = ['4', '2'] := by
    rw [natToDigits, dif_neg (by norm_num), natToDigits, dif_pos (by norm_num)]
    decide
  refine ⟨fbn_none_no_run Char.isDigit (by decide) _ (by decide), ?_, ?_⟩
  · rw [encodeTitle, h42]; decide
  · rw [encodeTitle, h42]; decide

/-- C3 (amended): decoding the title produced by encoding a `u64` id onto
a human title containing no bracketed run of Unicode digits (the regex
`\d` class) recovers the id.  A bracketed non-ASCII digit run in the human
title breaks the roundtrip (see the counterexample), so the hypothesis is
stated for the Unicode class the code matches. -/
theorem extract_encode_roundtrip (id : Nat) (t : List Char)
    (hid : id < 2 ^ 64) (ht : ¬ HasBracketRun t) :
    extract_thread_id (encodeTitle t id) = some id := by
  obtain ⟨hne, hdig, hnd, hval⟩ := natToDigits_spec id
  have hfbn := fbn_suffix isNd (by decide) (by decide) t (natToDigits id)
    (fbn_none_of_no_run isNd (by decide) t ht) hne hnd
  have hfbn2 : firstBracketNum (encodeTitle t id) = some (natToDigits id) :=
    hfbn
  rw [extract_thread_id, hfbn2]
  show parse_u64 (natToDigits id) = some id
  rw [parse_u64_digits _ hne hdig, hval, if_pos hid]

/-- C3 witness: concrete instance of the round trip. -/
theorem extract_encode_roundtrip_witness :
    1234567890 < 2 ^ 64 ∧ ¬ HasBracketRun "Bug with login".data ∧
      extract_thread_id (encodeTitle "Bug with login".data 1234567890) =
        some 1234567890 :=
  ⟨by decide, fbn_none_no_run isNd (by decide) _ (by decide),
    extract_encode_roundtrip 1234567890 "Bug with login".data (by decide)
      (fbn_none_no_run isNd (by decide) _ (by decide))⟩

/-- C4 counterexample: the claim says decode scans for the first bracketed
run of ASCII digits.  On `"[٢] [42]"` the first (and only) bracketed
ASCII-digit run is `42` — numeric, no overflow, and nothing bracketed-ASCII
precedes it — so the claim demands `some 42`; the program's regex instead
matches the Unicode run `٢` first and returns `None`. -/
theorem extract_thread_id_spec_cex :
    ¬ HasAsciiBracketRun "[٢] ".data ∧
    "[٢] [42]".data =
      "[٢] ".data ++ '[' :: (['4', '2'] ++ ']' :: ([] : List Char)) ∧
    (['4', '2'].all Char.isDigit) = true ∧
    digitsToNat ['4', '2'] < 2 ^ 64 ∧
    extract_thread_id "[٢] [42]".data = none :=
  ⟨fbn_none_no_run Char.isDigit (by decide) _ (by decide), by decide,
    by decide, by decide, by decide⟩

/-- C4 (amended): `extract_thread_id` returns nothing when the title has
no complete bracketed Unicode-digit (`\d`) run — in particular it never
matches bracketed non-digit content — and on the first (leftmost)
bracketed Unicode-digit run it returns the `u64` parse of the capture:
`some` exactly when the capture is all ASCII digits and fits in 64 bits,
`none` on a non-ASCII capture or on overflow. -/
theorem extract_thread_id_spec (t : List Char) :
    (¬ HasBracketRun t → extract_thread_id t = none) ∧
    (∀ pre ds post, t = pre ++ '[' :: (ds ++ ']' :: post) → ds ≠ [] →
      ds.all isNd = true →
      (∀ pre' ds' post', t = pre' ++ '[' :: (ds' ++ ']' :: post') →
        ds' ≠ [] → ds'.all isNd = true →
        pre.length ≤ pre'.length) →
      extract_thread_id t =
        if ds.all Char.isDigit = true then
          (if digitsToNat ds < 2 ^ 64 then some (digitsToNat ds) else none)
        else none) := by
  constructor
  · intro ht
    have h1 : firstBracketNum t = none :=
      fbn_none_of_no_run isNd (by decide) t ht
    rw [extract_thread_id, h1]
  · intro pre ds post hdec hne hdig hmin
    cases h : firstBracketNumP isNd t with
    | none =>
      exact absurd ⟨pre, ds, post, hdec, hne, hdig⟩
        (fbn_none_no_run isNd (by decide) t h)
    | some ds0 =>
      obtain ⟨hne0, hdig0, pre0, post0, hdec0, hmin0⟩ :=
        fbn_some_spec isNd (by decide) t ds0 h
      have hle1 := hmin pre0 ds0 post0 hdec0 hne0 hdig0
      have hle2 := hmin0 pre ds post hdec hne hdig
      have hlen : pre.length = pre0.length := Nat.le_antisymm hle1 hle2
      have happ : pre ++ '[' :: (ds ++ ']' :: post) =
          pre0 ++ '[' :: (ds0 ++ ']' :: post0) := by rw [← hdec, ← hdec0]
      obtain ⟨-, htail⟩ := List.append_inj happ hlen
      have htail2 : ds ++ ']' :: post = ds0 ++ ']' :: post0 := by
        injection htail
      have hds : ds = ds0 := by
        have t1 := (takeWhile_all_append isNd ds ']' post hdig
          (by decide)).1
        have t2 := (takeWhile_all_append isNd ds0 ']' post0 hdig0
          (by decide)).1
        rw [← t1, ← t2, htail2]
      subst hds
      have h2 : firstBracketNum t = some ds := h
      rw [extract_thread_id, h2]
      show parse_u64 ds = _
      rw [parse_u64_nd _ hne hdig]

/-- C4 witness: bracketed non-digit content decodes to nothing; a leftmost
bracketed ASCII-digit run decodes to its checked value. -/
theorem extract_thread_id_spec_witness :
    extract_thread_id "[not-a-number]".data = none ∧
      extract_thread_id "[42] and [7]".data =
        (if (['4', '2'].all Char.isDigit) = true then
          (if digitsToNat ['4', '2'] < 2 ^ 64 then some (digitsToNat ['4', '2'])
            else none)
        else none) :=
  ⟨(extract_thread_id_spec "[not-a-number]".data).1
      (fbn_none_no_run isNd (by decide) _ (by decide)),
    (extract_thread_id_spec "[42] and [7]".data).2 [] ['4', '2']
      " and [7]".data (by decide) (by decide) (by decide)
      (fun _ _ _ _ _ _ => Nat.zero_le _)⟩
/-! ## Basic world-mutation lemmas -/

theorem applyEvent_fail (w : World) (e : Event) :
    (applyEvent w e).fail = w.fail := by
  cases e <;> rfl

theorem applyEvent_openIssues (w : World) (e : Event) :
    (applyEvent w e).openIssues = w.openIssues := by
  cases e <;> rfl

theorem applyEvent_issueState (w : World) (e : Event) :
    (applyEvent w e).issueState = w.issueState := by
  cases e <;> rfl

theorem applyEvent_channels_other (w : World) (e : Event) (i : Nat)
    (h : e.threadId ≠ i) :
    (applyEvent w e).channels i = w.channels i := by
  cases e with
  | send j c => rfl
  | edit j l a =>
    have : ¬ i = j := fun hh => h hh.symm
    simp [applyEvent, this]

theorem scanMessages_cons_embedless (c : List Char) (ms : List Message) :
    scanMessages (⟨true, [], c⟩ :: ms) = scanMessages ms := by
  rfl

theorem applyEvent_scan (w : World) (e : Event) (i : Nat) :
    scanMessages ((applyEvent w e).msgs i) = scanMessages (w.msgs i) := by
  cases e with
  | send j c =>
    by_cases hij : i = j
    · subst hij
      simp only [applyEvent, if_pos rfl]
      exact scanMessages_cons_embedless c (w.msgs i)
    · simp [applyEvent, hij]
  | edit j l a => rfl

theorem sweepDecision_congr (w1 w2 : World) (f : Nat) (ids : List Nat)
    (t : ThreadRec)
    (hscan : scanMessages (w1.msgs t.id) = scanMessages (w2.msgs t.id))
    (hst : w1.issueState = w2.issueState) :
    sweepDecision w1 f ids t = sweepDecision w2 f ids t := by
  rw [sweepDecision, sweepDecision, hscan, hst]

/-- The Close guard chain is insensitive to the corrective calls the cycle
itself makes: sends append embed-free bot messages and edits touch no
message window and no tracker state. -/
theorem sweepDecision_applyEvent (w : World) (e : Event) (f : Nat)
    (ids : List Nat) (t : ThreadRec) :
    sweepDecision (applyEvent w e) f ids t = sweepDecision w f ids t :=
  sweepDecision_congr _ _ _ _ _ (applyEvent_scan w e t.id)
    (applyEvent_issueState w e)

theorem reopenDecision_send (w : World) (j : Nat) (c : List Char) (i : Nat) :
    reopenDecision (applyEvent w (.send j c)) i = reopenDecision w i := by
  rfl

theorem reopenDecision_edit_other (w : World) (j : Nat) (l a : Bool) (i : Nat)
    (h : j ≠ i) :
    reopenDecision (applyEvent w (.edit j l a)) i = reopenDecision w i := by
  rw [reopenDecision, reopenDecision,
    applyEvent_channels_other w (.edit j l a) i h]

theorem reopenDecision_edit_ff (w : World) (i : Nat) :
    reopenDecision (applyEvent w (.edit i false false)) i = false := by
  rw [reopenDecision]
  have hc : (applyEvent w (.edit i false false)).channels i =
      match w.channels i with
      | some (some gc) =>
        some (some { gc with thread_metadata := some ⟨false, false⟩ })
      | x => x := by
    simp [applyEvent]
  rw [hc]
  cases hch : w.channels i with
  | none => rfl
  | some ch =>
    cases ch with
    | none => rfl
    | some gc =>
      change (if gc.kind = ChannelKind.publicThread
        then ({ gc with thread_metadata := some ⟨false, false⟩ } :
            GuildChannel).isLocked ||
          ({ gc with thread_metadata := some ⟨false, false⟩ } :
            GuildChannel).isArchived
        else false) = false
      by_cases hk : gc.kind = ChannelKind.publicThread
      · rw [if_pos hk]; rfl
      · rw [if_neg hk]

/-! ## `sync_open_issue` characterization -/

/-- When the Reopen guard rejects, `sync_open_issue` makes no corrective
call and leaves the world unchanged (whatever its return code). -/
theorem syncOpenIssue_noop (p : Project) (w : World) (tid : Nat)
    (hd : reopenDecision w tid = false) :
    (syncOpenIssue p w tid).1 = w ∧ (syncOpenIssue p w tid).2.1 = [] := by
  rw [reopenDecision] at hd
  cases hg : parse_u64 p.discord_guild_id with
  | none => constructor <;> simp [syncOpenIssue, hg]
  | some g =>
    cases hch : w.channels tid with
    | none => constructor <;> simp [syncOpenIssue, hg, hch]
    | some ch =>
      cases ch with
      | none => constructor <;> simp [syncOpenIssue, hg, hch]
      | some gc =>
        rw [hch] at hd
        change (if gc.kind = ChannelKind.publicThread
          then gc.isLocked || gc.isArchived else false) = false at hd
        by_cases hk : gc.kind = ChannelKind.publicThread
        · rw [if_pos hk] at hd
          constructor <;> simp [syncOpenIssue, hg, hch, hk, hd]
        · constructor <;> simp [syncOpenIssue, hg, hch, hk]

/-- When the Reopen guard accepts and transport succeeds,
`sync_open_issue` sends the reopened notification and then clears both
flags, in that order. -/
theorem syncOpenIssue_act (p : Project) (w : World) (tid : Nat) (g : Nat)
    (hg : parse_u64 p.discord_guild_id = some g)
    (hd : reopenDecision w tid = true)
    (hs : w.fail.sendFail tid = false) (he : w.fail.editFail tid = false) :
    syncOpenIssue p w tid =
      (applyEvent (applyEvent w (.send tid MSG_ISSUE_REOPENED))
          (.edit tid false false),
        [.send tid MSG_ISSUE_REOPENED, .edit tid false false], .ok true) := by
  rw [reopenDecision] at hd
  cases hch : w.channels tid with
  | none => rw [hch] at hd; exact absurd hd (by simp)
  | some ch =>
    cases ch with
    | none => rw [hch] at hd; exact absurd hd (by simp)
    | some gc =>
      rw [hch] at hd
      change (if gc.kind = ChannelKind.publicThread
        then gc.isLocked || gc.isArchived else false) = true at hd
      by_cases hk : gc.kind = ChannelKind.publicThread
      · rw [if_pos hk] at hd
        simp [syncOpenIssue, hg, hch, hk, hd, hs, he]
      · rw [if_neg hk] at hd
        exact absurd hd (by simp)

/-- The three possible outcomes of `sync_open_issue`, expressed uniformly:
the final world is the fold of the emitted corrective calls, and each call
is the reopened send or the unlocking edit of the processed thread. -/
theorem syncOpenIssue_shape (p : Project) (w : World) (tid : Nat) :
    (syncOpenIssue p w tid).1 =
      ((syncOpenIssue p w tid).2.1).foldl applyEvent w ∧
    ∀ e ∈ (syncOpenIssue p w tid).2.1,
      e = Event.send tid MSG_ISSUE_REOPENED ∨ e = Event.edit tid false false := by
  cases hg : parse_u64 p.discord_guild_id with
  | none => constructor <;> simp [syncOpenIssue, hg]
  | some g =>
    cases hch : w.channels tid with
    | none => constructor <;> simp [syncOpenIssue, hg, hch]
    | some ch =>
      cases ch with
      | none => constructor <;> simp [syncOpenIssue, hg, hch]
      | some gc =>
        by_cases hk : gc.kind = ChannelKind.publicThread
        · by_cases hla : (gc.isLocked || gc.isArchived) = true
          · by_cases hsf : w.fail.sendFail tid = true
            · constructor <;> simp [syncOpenIssue, hg, hch, hk, hla, hsf]
            · by_cases hef : w.fail.editFail tid = true
              · constructor <;>
                  simp [syncOpenIssue, hg, hch, hk, hla, hsf, hef]
              · constructor <;>
                  simp [syncOpenIssue, hg, hch, hk, hla, hsf, hef]
          · constructor <;> simp [syncOpenIssue, hg, hch, hk, hla]
        · constructor <;> simp [syncOpenIssue, hg, hch, hk]

/-! ## Transport of observations along corrective calls -/

theorem foldl_applyEvent_fail (es : List Event) (w : World) :
    (es.foldl applyEvent w).fail = w.fail := by
  induction es generalizing w with
  | nil => rfl
  | cons e es ih =>
    rw [List.foldl_cons, ih (applyEvent w e), applyEvent_fail]

theorem foldl_applyEvent_openIssues (es : List Event) (w : World) :
    (es.foldl applyEvent w).openIssues = w.openIssues := by
  induction es generalizing w with
  | nil => rfl
  | cons e es ih =>
    rw [List.foldl_cons, ih (applyEvent w e), applyEvent_openIssues]

theorem foldl_applyEvent_issueState (es : List Event) (w : World) :
    (es.foldl applyEvent w).issueState = w.issueState := by
  induction es generalizing w with
  | nil => rfl
  | cons e es ih =>
    rw [List.foldl_cons, ih (applyEvent w e), applyEvent_issueState]

theorem foldl_applyEvent_scan (es : List Event) (w : World) (i : Nat) :
    scanMessages ((es.foldl applyEvent w).msgs i) = scanMessages (w.msgs i) := by
  induction es generalizing w with
  | nil => rfl
  | cons e es ih =>
    rw [List.foldl_cons]
    exact (ih (applyEvent w e)).trans (applyEvent_scan w e i)

theorem foldl_applyEvent_sweepDecision (es : List Event) (w : World) (f : Nat)
    (ids : List Nat) (t : ThreadRec) :
    sweepDecision (es.foldl applyEvent w) f ids t = sweepDecision w f ids t :=
  sweepDecision_congr _ _ _ _ _ (foldl_applyEvent_scan es w t.id)
    (foldl_applyEvent_issueState es w)

theorem foldl_applyEvent_channels (es : List Event) (w : World) (i : Nat)
    (h : ∀ e ∈ es, e.threadId ≠ i) :
    (es.foldl applyEvent w).channels i = w.channels i := by
  induction es generalizing w with
  | nil => rfl
  | cons e es ih =>
    rw [List.foldl_cons,
      ih (applyEvent w e) (fun e' he' => h e' (List.mem_cons_of_mem e he')),
      applyEvent_channels_other w e i (h e (List.mem_cons_self e es))]

theorem reopenDecision_false_step (w : World) (i : Nat) (e : Event)
    (hd : reopenDecision w i = false)
    (he : (∃ j c, e = .send j c) ∨ (∃ j, e = .edit j false false) ∨
      e.threadId ≠ i) :
    reopenDecision (applyEvent w e) i = false := by
  rcases he with ⟨j, c, rfl⟩ | ⟨j, rfl⟩ | hne
  · rw [reopenDecision_send]; exact hd
  · by_cases hij : j = i
    · subst hij; exact reopenDecision_edit_ff w j
    · rw [reopenDecision_edit_other w j false false i hij]; exact hd
  · cases e with
    | send j c => rw [reopenDecision_send]; exact hd
    | edit j l a =>
      rw [reopenDecision_edit_other w j l a i hne]; exact hd

theorem foldl_reopenDecision_false (es : List Event) (w : World) (i : Nat)
    (hd : reopenDecision w i = false)
    (hes : ∀ e ∈ es, (∃ j c, e = .send j c) ∨ (∃ j, e = .edit j false false) ∨
      e.threadId ≠ i) :
    reopenDecision (es.foldl applyEvent w) i = false := by
  induction es generalizing w with
  | nil => exact hd
  | cons e es ih =>
    rw [List.foldl_cons]
    exact ih (applyEvent w e)
      (reopenDecision_false_step w i e hd (hes e (List.mem_cons_self e es)))
      (fun e' he' => hes e' (List.mem_cons_of_mem e he'))

theorem applyEvent_activeThreads_mem (w : World) (e : Event) (t : ThreadRec)
    (hmem : t ∈ w.activeThreads) (hne : e.threadId ≠ t.id) :
    t ∈ (applyEvent w e).activeThreads := by
  cases e with
  | send j c => exact hmem
  | edit j l a =>
    simp only [applyEvent]
    refine List.mem_map.mpr ⟨t, hmem, ?_⟩
    rw [if_neg (fun hh => hne hh.symm)]

theorem foldl_activeThreads_mem (es : List Event) (w : World) (t : ThreadRec)
    (hmem : t ∈ w.activeThreads) (hes : ∀ e ∈ es, e.threadId ≠ t.id) :
    t ∈ (es.foldl applyEvent w).activeThreads := by
  induction es generalizing w with
  | nil => exact hmem
  | cons e es ih =>
    rw [List.foldl_cons]
    exact ih (applyEvent w e)
      (applyEvent_activeThreads_mem w e t hmem (hes e (List.mem_cons_self e es)))
      (fun e' he' => hes e' (List.mem_cons_of_mem e he'))

theorem applyEvent_entries (w : World) (e : Event)
    (hshape : (∃ j c, e = .send j c) ∨ ∃ j, e = .edit j true true) :
    ∀ t' ∈ (applyEvent w e).activeThreads,
      ∃ t ∈ w.activeThreads, t.id = t'.id ∧
        (t' = t ∨ t'.thread_metadata = some ⟨true, true⟩) := by
  rcases hshape with ⟨j, c, rfl⟩ | ⟨j, rfl⟩
  · exact fun t' h => ⟨t', h, rfl, Or.inl rfl⟩
  · intro t' h
    simp only [applyEvent] at h
    obtain ⟨t, hmem, hmap⟩ := List.mem_map.mp h
    by_cases hij : t.id = j
    · rw [if_pos hij] at hmap
      exact ⟨t, hmem, by rw [← hmap], Or.inr (by rw [← hmap])⟩
    · rw [if_neg hij] at hmap
      exact ⟨t, hmem, by rw [hmap], Or.inl hmap.symm⟩

theorem foldl_entries (es : List Event) (w : World)
    (hes : ∀ e ∈ es, (∃ j c, e = .send j c) ∨ ∃ j, e = .edit j true true) :
    ∀ t' ∈ (es.foldl applyEvent w).activeThreads,
      ∃ t ∈ w.activeThreads, t.id = t'.id ∧
        (t' = t ∨ t'.thread_metadata = some ⟨true, true⟩) := by
  induction es generalizing w with
  | nil => exact fun t' h => ⟨t', h, rfl, Or.inl rfl⟩
  | cons e es ih =>
    intro t' h
    rw [List.foldl_cons] at h
    obtain ⟨t1, hmem1, hid1, hrel1⟩ :=
      ih (applyEvent w e) (fun e' he' => hes e' (List.mem_cons_of_mem e he'))
        t' h
    obtain ⟨t0, hmem0, hid0, hrel0⟩ :=
      applyEvent_entries w e (hes e (List.mem_cons_self e es)) t1 hmem1
    refine ⟨t0, hmem0, hid0.trans hid1, ?_⟩
    rcases hrel1 with rfl | hmeta
    · rcases hrel0 with rfl | hmeta0
      · exact Or.inl rfl
      · exact Or.inr hmeta0
    · exact Or.inr hmeta

theorem archivedAll_establish (w : World) (i : Nat) :
    ArchivedAll (applyEvent w (.edit i true true)) i := by
  intro t' h hid
  simp only [applyEvent] at h
  obtain ⟨t, hmem, hmap⟩ := List.mem_map.mp h
  by_cases hij : t.id = i
  · rw [if_pos hij] at hmap; rw [← hmap]
  · rw [if_neg hij] at hmap
    exact absurd (hmap ▸ hid) hij

theorem archivedAll_step (w : World) (i : Nat) (e : Event)
    (hshape : (∃ j c, e = .send j c) ∨ ∃ j, e = .edit j true true)
    (h : ArchivedAll w i) : ArchivedAll (applyEvent w e) i := by
  rcases hshape with ⟨j, c, rfl⟩ | ⟨j, rfl⟩
  · exact h
  · intro t' ht' hid
    simp only [applyEvent] at ht'
    obtain ⟨t, hmem, hmap⟩ := List.mem_map.mp ht'
    by_cases hij : t.id = j
    · rw [if_pos hij] at hmap; rw [← hmap]
    · rw [if_neg hij] at hmap
      exact h t' (hmap ▸ hmem) hid

theorem foldl_archivedAll (es : List Event) (w : World) (i : Nat)
    (hes : ∀ e ∈ es, (∃ j c, e = .send j c) ∨ ∃ j, e = .edit j true true)
    (h : ArchivedAll w i) : ArchivedAll (es.foldl applyEvent w) i := by
  induction es generalizing w with
  | nil => exact h
  | cons e es ih =>
    rw [List.foldl_cons]
    exact ih (applyEvent w e)
      (fun e' he' => hes e' (List.mem_cons_of_mem e he'))
      (archivedAll_step w i e (hes e (List.mem_cons_self e es)) h)

theorem foldl_reopenDecision_other (es : List Event) (w : World) (i : Nat)
    (h : ∀ e ∈ es, e.threadId ≠ i) :
    reopenDecision (es.foldl applyEvent w) i = reopenDecision w i := by
  rw [reopenDecision, reopenDecision, foldl_applyEvent_channels es w i h]

/-! ## The open-issue pass -/

theorem syncOpenPass_cons_none (p : Project) (w : World) (issue : Issue)
    (rest : List Issue) (hx : extract_thread_id issue.title = none) :
    syncOpenPass p w (issue :: rest) = syncOpenPass p w rest := by
  simp [syncOpenPass, hx]

theorem syncOpenPass_cons_some (p : Project) (w : World) (issue : Issue)
    (rest : List Issue) (tid : Nat)
    (hx : extract_thread_id issue.title = some tid) :
    syncOpenPass p w (issue :: rest) =
      ((syncOpenPass p (syncOpenIssue p w tid).1 rest).1,
        (syncOpenIssue p w tid).2.1 ++
          (syncOpenPass p (syncOpenIssue p w tid).1 rest).2) := by
  simp [syncOpenPass, hx]

/-- The open pass's final world is the fold of its corrective calls, each
of which is a reopened send or an unlocking edit of some extracted id. -/
theorem syncOpenPass_shape (p : Project) (issues : List Issue) (w : World) :
    (syncOpenPass p w issues).1 =
      ((syncOpenPass p w issues).2).foldl applyEvent w ∧
    ∀ e ∈ (syncOpenPass p w issues).2,
      (∃ i ∈ issues, extract_thread_id i.title = some e.threadId) ∧
      (e = Event.send e.threadId MSG_ISSUE_REOPENED ∨
        e = Event.edit e.threadId false false) := by
  induction issues generalizing w with
  | nil => exact ⟨rfl, by simp [syncOpenPass]⟩
  | cons issue rest ih =>
    cases hx : extract_thread_id issue.title with
    | none =>
      rw [syncOpenPass_cons_none p w issue rest hx]
      obtain ⟨ih1, ih2⟩ := ih w
      refine ⟨ih1, fun e he => ?_⟩
      obtain ⟨⟨i, hi, hxi⟩, hsh⟩ := ih2 e he
      exact ⟨⟨i, List.mem_cons_of_mem issue hi, hxi⟩, hsh⟩
    | some tid =>
      rw [syncOpenPass_cons_some p w issue rest tid hx]
      obtain ⟨hw1, hsh1⟩ := syncOpenIssue_shape p w tid
      obtain ⟨ih1, ih2⟩ := ih (syncOpenIssue p w tid).1
      constructor
      · rw [List.foldl_append, ← hw1]
        exact ih1
      · intro e he
        rcases List.mem_append.mp he with he1 | he2
        · have hsh := hsh1 e he1
          have hti : e.threadId = tid := by rcases hsh with rfl | rfl <;> rfl
          refine ⟨⟨issue, List.mem_cons_self issue rest, by rw [hti]; exact hx⟩, ?_⟩
          rw [hti]
          exact hsh
        · obtain ⟨⟨i, hi, hxi⟩, hsh⟩ := ih2 e he2
          exact ⟨⟨i, List.mem_cons_of_mem issue hi, hxi⟩, hsh⟩

/-- If the Reopen guard rejects every extracted id, the open pass makes no
corrective call and leaves the world unchanged. -/
theorem syncOpenPass_noop (p : Project) (issues : List Issue) (w : World)
    (h : ∀ i ∈ issues, ∀ tid, extract_thread_id i.title = some tid →
      reopenDecision w tid = false) :
    syncOpenPass p w issues = (w, []) := by
  induction issues with
  | nil => rfl
  | cons issue rest ih =>
    cases hx : extract_thread_id issue.title with
    | none =>
      rw [syncOpenPass_cons_none p w issue rest hx]
      exact ih fun i hi => h i (List.mem_cons_of_mem issue hi)
    | some tid =>
      have hd := h issue (List.mem_cons_self issue rest) tid hx
      obtain ⟨h1, h2⟩ := syncOpenIssue_noop p w tid hd
      rw [syncOpenPass_cons_some p w issue rest tid hx, h1, h2,
        ih fun i hi => h i (List.mem_cons_of_mem issue hi)]
      rfl

/-- After the open pass (with parsable guild id and no transport failure),
the Reopen guard rejects every extracted id: each processed thread is left
unlocked and unarchived whatever its starting state. -/
theorem syncOpenPass_post (p : Project) (issues : List Issue) (w : World)
    (g : Nat) (hg : parse_u64 p.discord_guild_id = some g)
    (hfail : w.fail = Failures.noFail) :
    ∀ i ∈ issues, ∀ tid, extract_thread_id i.title = some tid →
      reopenDecision (syncOpenPass p w issues).1 tid = false := by
  induction issues generalizing w with
  | nil => intro i hi; exact absurd hi (by simp)
  | cons issue rest ih =>
    intro i hi tid hx
    cases hx0 : extract_thread_id issue.title with
    | none =>
      rw [syncOpenPass_cons_none p w issue rest hx0]
      rcases List.mem_cons.mp hi with rfl | hi2
      · rw [hx0] at hx; exact absurd hx (by simp)
      · exact ih w hfail i hi2 tid hx
    | some tid0 =>
      rw [syncOpenPass_cons_some p w issue rest tid0 hx0]
      obtain ⟨hw1, hsh1⟩ := syncOpenIssue_shape p w tid0
      have hrfail : (syncOpenIssue p w tid0).1.fail = w.fail := by
        rw [hw1, foldl_applyEvent_fail]
      rcases List.mem_cons.mp hi with rfl | hi2
      · have htid : tid = tid0 := by
          rw [hx0] at hx; injection hx with hh; exact hh.symm
        subst htid
        have hstep : reopenDecision (syncOpenIssue p w tid).1 tid = false := by
          by_cases hd : reopenDecision w tid = true
          · rw [syncOpenIssue_act p w tid g hg hd
              (by rw [hfail]; rfl) (by rw [hfail]; rfl)]
            exact reopenDecision_edit_ff _ tid
          · rw [(syncOpenIssue_noop p w tid
              (Bool.not_eq_true _ ▸ eq_false_of_ne_true hd)).1]
            exact eq_false_of_ne_true hd
        obtain ⟨hw2, hsh2⟩ := syncOpenPass_shape p rest (syncOpenIssue p w tid).1
        rw [hw2]
        refine foldl_reopenDecision_false _ _ tid hstep fun e he => ?_
        rcases (hsh2 e he).2 with hse | hse
        · exact Or.inl ⟨e.threadId, MSG_ISSUE_REOPENED, hse⟩
        · exact Or.inr (Or.inl ⟨e.threadId, hse⟩)
      · exact ih (syncOpenIssue p w tid0).1 (hrfail.trans hfail) i hi2 tid hx

/-- If some open issue decodes to `tid` and the Reopen guard accepts `tid`,
the open pass emits the reopened send followed by the unlocking edit. -/
theorem syncOpenPass_acts (p : Project) (issues : List Issue) (w : World)
    (tid g : Nat) (hg : parse_u64 p.discord_guild_id = some g)
    (hex : ∃ i ∈ issues, extract_thread_id i.title = some tid)
    (hd : reopenDecision w tid = true)
    (hs : w.fail.sendFail tid = false) (he : w.fail.editFail tid = false) :
    List.Sublist [Event.send tid MSG_ISSUE_REOPENED, Event.edit tid false false]
      (syncOpenPass p w issues).2 := by
  induction issues generalizing w with
  | nil => obtain ⟨i, hi, -⟩ := hex; exact absurd hi (by simp)
  | cons issue rest ih =>
    cases hx0 : extract_thread_id issue.title with
    | none =>
      rw [syncOpenPass_cons_none p w issue rest hx0]
      obtain ⟨i, hi, hxi⟩ := hex
      rcases List.mem_cons.mp hi with rfl | hi2
      · rw [hx0] at hxi; exact absurd hxi (by simp)
      · exact ih w ⟨i, hi2, hxi⟩ hd hs he
    | some tid0 =>
      rw [syncOpenPass_cons_some p w issue rest tid0 hx0]
      by_cases htid : tid0 = tid
      · subst htid
        rw [syncOpenIssue_act p w tid0 g hg hd hs he]
        exact List.sublist_append_left _ _
      · obtain ⟨hw1, hsh1⟩ := syncOpenIssue_shape p w tid0
        have hne : ∀ e ∈ (syncOpenIssue p w tid0).2.1, e.threadId ≠ tid := by
          intro e hme
          rcases hsh1 e hme with rfl | rfl <;> exact htid
        have hd2 : reopenDecision (syncOpenIssue p w tid0).1 tid = true := by
          rw [hw1, foldl_reopenDecision_other _ _ _ hne]
          exact hd
        have hfail2 : (syncOpenIssue p w tid0).1.fail = w.fail := by
          rw [hw1, foldl_applyEvent_fail]
        obtain ⟨i, hi, hxi⟩ := hex
        have hi2 : i ∈ rest := by
          rcases List.mem_cons.mp hi with rfl | hi2
          · rw [hx0] at hxi
            injection hxi with hxi2
            exact absurd hxi2 htid
          · exact hi2
        have := ih (syncOpenIssue p w tid0).1 ⟨i, hi2, hxi⟩ hd2
          (by rw [hfail2]; exact hs) (by rw [hfail2]; exact he)
        exact this.trans (List.sublist_append_right _ _)

/-! ## The thread sweep -/

/-- With no transport failure, the sweep body is fully determined by the
Close guard chain: reject means no call and no mutation, accept means the
closed send followed by the locking edit. -/
theorem sweepThread_spec (w : World) (f : Nat) (ids : List Nat)
    (t : ThreadRec) (hfail : w.fail = Failures.noFail) :
    sweepThread w f ids t =
      match sweepDecision w f ids t with
      | none => (w, [], Except.ok ())
      | some _ =>
        (applyEvent (applyEvent w (.send t.id MSG_ISSUE_CLOSED))
            (.edit t.id true true),
          [.send t.id MSG_ISSUE_CLOSED, .edit t.id true true],
          Except.ok ()) := by
  by_cases h1 : t.parent_id = some f
  · by_cases h2 : (THREAD_PREFIXES.any fun pre => pre.isPrefixOf t.name) = true
    · by_cases h3 : (t.isArchived || t.isLocked) = true
      · simp [sweepThread, sweepDecision, h1, h2, h3]
      · by_cases h4 : t.id ∈ ids
        · simp [sweepThread, sweepDecision, h1, h2, h3, h4]
        · have h5 : w.fail.msgsFail t.id = false := by rw [hfail]; rfl
          cases hscan : scanMessages (w.msgs t.id) with
          | none => simp [sweepThread, sweepDecision, h1, h2, h3, h4, h5, hscan]
          | some url =>
            cases hlast : (splitSlash url).getLast? with
            | none =>
              simp [sweepThread, sweepDecision, h1, h2, h3, h4, h5, hscan,
                hlast]
            | some seg =>
              cases hparse : parse_u64 seg with
              | none =>
                simp [sweepThread, sweepDecision, h1, h2, h3, h4, h5, hscan,
                  hlast, hparse]
              | some n =>
                have h6 : w.fail.issueFail n = false := by rw [hfail]; rfl
                have h8 : w.fail.sendFail t.id = false := by rw [hfail]; rfl
                have h9 : w.fail.editFail t.id = false := by rw [hfail]; rfl
                by_cases h7 : w.issueState n = IssueState.closed
                · simp [sweepThread, sweepDecision, h1, h2, h3, h4, h5, hscan,
                    hlast, hparse, h6, h7, h8, h9]
                · simp [sweepThread, sweepDecision, h1, h2, h3, h4, h5, hscan,
                    hlast, hparse, h6, h7]
    · simp [sweepThread, sweepDecision, h1, h2]
  · simp [sweepThread, sweepDecision, h1]

/-- A closing decision implies the skip guards rejected. -/
theorem sweepDecision_some_facts (w : World) (f : Nat) (ids : List Nat)
    (t : ThreadRec) (n : Nat) (h : sweepDecision w f ids t = some n) :
    t.id ∉ ids ∧ (t.isArchived || t.isLocked) = false := by
  rw [sweepDecision] at h
  by_cases h1 : t.parent_id = some f
  · rw [if_neg (by simpa using h1)] at h
    by_cases h2 : (THREAD_PREFIXES.any fun pre => pre.isPrefixOf t.name) = true
    · rw [if_neg (by simpa using h2)] at h
      by_cases h3 : (t.isArchived || t.isLocked) = true
      · rw [if_pos h3] at h; exact absurd h (by simp)
      · by_cases h4 : ids.contains t.id = true
        · rw [if_neg h3, if_pos h4] at h; exact absurd h (by simp)
        · refine ⟨fun hmem => h4 ?_, eq_false_of_ne_true h3⟩
          simpa using hmem
    · rw [if_pos (by simpa using h2)] at h; exact absurd h (by simp)
  · rw [if_pos (by simpa using h1)] at h; exact absurd h (by simp)

/-- The failure-free sweep completes, its final world is the fold of its
corrective calls, and every call is a closed send or a locking edit of a
thread outside the open-ticket id set. -/
theorem sweepGo_shape (f : Nat) (ids : List Nat) (w : World)
    (ts : List ThreadRec) (hfail : w.fail = Failures.noFail) :
    (sweepGo f ids w ts).2.2 = Except.ok () ∧
    (sweepGo f ids w ts).1 = ((sweepGo f ids w ts).2.1).foldl applyEvent w ∧
    ∀ e ∈ (sweepGo f ids w ts).2.1,
      e.threadId ∉ ids ∧
      (e = Event.send e.threadId MSG_ISSUE_CLOSED ∨
        e = Event.edit e.threadId true true) := by
  induction ts generalizing w with
  | nil => exact ⟨rfl, rfl, by simp [sweepGo]⟩
  | cons t ts ih =>
    have hspec := sweepThread_spec w f ids t hfail
    cases hd : sweepDecision w f ids t with
    | none =>
      rw [hd] at hspec
      obtain ⟨ih1, ih2, ih3⟩ := ih w hfail
      refine ⟨?_, ?_, ?_⟩ <;> simp only [sweepGo, hspec, List.nil_append]
      · exact ih1
      · exact ih2
      · exact ih3
    | some n =>
      rw [hd] at hspec
      have hfail2 :
          (applyEvent (applyEvent w (.send t.id MSG_ISSUE_CLOSED))
            (.edit t.id true true)).fail = w.fail := by
        rw [applyEvent_fail, applyEvent_fail]
      obtain ⟨ih1, ih2, ih3⟩ :=
        ih (applyEvent (applyEvent w (.send t.id MSG_ISSUE_CLOSED))
          (.edit t.id true true)) (hfail2.trans hfail)
      obtain ⟨hcont, -⟩ := sweepDecision_some_facts w f ids t n hd
      refine ⟨?_, ?_, ?_⟩ <;> simp only [sweepGo, hspec]
      · exact ih1
      · rw [List.foldl_append]
        exact ih2
      · intro e he
        rcases List.mem_append.mp he with he1 | he2
        · simp only [List.mem_cons, List.mem_singleton, List.not_mem_nil,
            or_false] at he1
          rcases he1 with rfl | rfl
          · exact ⟨hcont, Or.inl rfl⟩
          · exact ⟨hcont, Or.inr rfl⟩
        · exact ih3 e he2

/-- A thread of the sweep snapshot whose Close guard (evaluated against the
sweep's starting world) accepts gets the closed send followed by the
locking edit, wherever it sits in the snapshot. -/
theorem sweepGo_closes (f : Nat) (ids : List Nat) (w : World)
    (ts : List ThreadRec) (t : ThreadRec) (n : Nat)
    (hfail : w.fail = Failures.noFail) (hmem : t ∈ ts)
    (hd : sweepDecision w f ids t = some n) :
    List.Sublist [Event.send t.id MSG_ISSUE_CLOSED, Event.edit t.id true true]
      (sweepGo f ids w ts).2.1 := by
  induction ts generalizing w with
  | nil => exact absurd hmem (by simp)
  | cons t0 ts ih =>
    have hspec := sweepThread_spec w f ids t0 hfail
    rcases List.mem_cons.mp hmem with rfl | hmem2
    · rw [hd] at hspec
      simp only [sweepGo, hspec]
      exact List.sublist_append_left _ _
    · cases hd0 : sweepDecision w f ids t0 with
      | none =>
        rw [hd0] at hspec
        simp only [sweepGo, hspec, List.nil_append]
        exact ih w hfail hmem2 hd
      | some n0 =>
        rw [hd0] at hspec
        simp only [sweepGo, hspec]
        have hfail2 :
            (applyEvent (applyEvent w (.send t0.id MSG_ISSUE_CLOSED))
              (.edit t0.id true true)).fail = w.fail := by
          rw [applyEvent_fail, applyEvent_fail]
        have hd2 : sweepDecision
            (applyEvent (applyEvent w (.send t0.id MSG_ISSUE_CLOSED))
              (.edit t0.id true true)) f ids t = some n := by
          rw [sweepDecision_applyEvent, sweepDecision_applyEvent]
          exact hd
        exact (ih _ (hfail2.trans hfail) hmem2 hd2).trans
          (List.sublist_append_right _ _)

/-- Every snapshot thread is either rejected by the Close guard at the
sweep's starting world or receives its locking edit during the sweep. -/
theorem sweepGo_post (f : Nat) (ids : List Nat) (w : World)
    (ts : List ThreadRec) (hfail : w.fail = Failures.noFail) :
    ∀ t ∈ ts, sweepDecision w f ids t = none ∨
      Event.edit t.id true true ∈ (sweepGo f ids w ts).2.1 := by
  induction ts generalizing w with
  | nil => intro t hmem; exact absurd hmem (by simp)
  | cons t0 ts ih =>
    intro t hmem
    have hspec := sweepThread_spec w f ids t0 hfail
    cases hd0 : sweepDecision w f ids t0 with
    | none =>
      rw [hd0] at hspec
      rcases List.mem_cons.mp hmem with rfl | hmem2
      · exact Or.inl hd0
      · rcases ih w hfail t hmem2 with hnone | hmemev
        · exact Or.inl hnone
        · refine Or.inr ?_
          simp only [sweepGo, hspec, List.nil_append]
          exact hmemev
    | some n0 =>
      rw [hd0] at hspec
      have hfail2 :
          (applyEvent (applyEvent w (.send t0.id MSG_ISSUE_CLOSED))
            (.edit t0.id true true)).fail = w.fail := by
        rw [applyEvent_fail, applyEvent_fail]
      rcases List.mem_cons.mp hmem with rfl | hmem2
      · refine Or.inr ?_
        simp only [sweepGo, hspec]
        exact List.mem_append.mpr (Or.inl (by simp))
      · rcases ih _ (hfail2.trans hfail) t hmem2 with hnone | hmemev
        · refine Or.inl ?_
          rw [sweepDecision_applyEvent, sweepDecision_applyEvent] at hnone
          exact hnone
        · refine Or.inr ?_
          simp only [sweepGo, hspec]
          exact List.mem_append.mpr (Or.inr hmemev)

/-- A sweep whose Close guard rejects every snapshot thread makes no call
and no mutation. -/
theorem sweepGo_noop (f : Nat) (ids : List Nat) (w : World)
    (ts : List ThreadRec) (hfail : w.fail = Failures.noFail)
    (h : ∀ t ∈ ts, sweepDecision w f ids t = none) :
    sweepGo f ids w ts = (w, [], Except.ok ()) := by
  induction ts with
  | nil => rfl
  | cons t0 ts ih =>
    have hspec := sweepThread_spec w f ids t0 hfail
    rw [h t0 (List.mem_cons_self t0 ts)] at hspec
    simp only [sweepGo, hspec]
    rw [ih fun t ht => h t (List.mem_cons_of_mem t0 ht)]
    rfl

/-- Once the sweep locks and archives a thread id, every active-thread row
with that id is archived and locked in the sweep's final world. -/
theorem sweepGo_archived (f : Nat) (ids : List Nat) (w : World)
    (ts : List ThreadRec) (i : Nat) (hfail : w.fail = Failures.noFail)
    (h : Event.edit i true true ∈ (sweepGo f ids w ts).2.1) :
    ArchivedAll (sweepGo f ids w ts).1 i := by
  induction ts generalizing w with
  | nil => exact absurd h (by simp [sweepGo])
  | cons t0 ts ih =>
    have hspec := sweepThread_spec w f ids t0 hfail
    cases hd0 : sweepDecision w f ids t0 with
    | none =>
      rw [hd0] at hspec
      simp only [sweepGo, hspec, List.nil_append] at h ⊢
      exact ih w hfail h
    | some n0 =>
      rw [hd0] at hspec
      have hfail2 :
          (applyEvent (applyEvent w (.send t0.id MSG_ISSUE_CLOSED))
            (.edit t0.id true true)).fail = w.fail := by
        rw [applyEvent_fail, applyEvent_fail]
      simp only [sweepGo, hspec] at h ⊢
      rcases List.mem_append.mp h with he1 | he2
      · have hid : i = t0.id := by simpa using he1
        subst hid
        obtain ⟨-, hw2, hsh2⟩ :=
          sweepGo_shape f ids
            (applyEvent (applyEvent w (.send t0.id MSG_ISSUE_CLOSED))
              (.edit t0.id true true)) ts (hfail2.trans hfail)
        rw [hw2]
        refine foldl_archivedAll _ _ _ (fun e he => ?_) ?_
        · rcases (hsh2 e he).2 with hse | hse
          · exact Or.inl ⟨e.threadId, MSG_ISSUE_CLOSED, hse⟩
          · exact Or.inr ⟨e.threadId, hse⟩
        · exact archivedAll_establish _ _
      · exact ih _ (hfail2.trans hfail) he2

/-! ## Whole-cycle lemmas -/

theorem syncProject_eq (p : Project) (w : World)
    (hs : w.fail.searchFail = false) :
    syncProject p w =
      ((syncDiscordThreads p (syncOpenPass p w (searchOpenIssues w)).1
          (openIdsOf w)).1,
        (syncOpenPass p w (searchOpenIssues w)).2 ++
          (syncDiscordThreads p (syncOpenPass p w (searchOpenIssues w)).1
            (openIdsOf w)).2.1,
        Except.ok ()) := by
  rw [syncProject, if_neg (by rw [hs]; simp)]
  rfl

theorem syncOpenPass_guild_fail (p : Project) (w : World)
    (issues : List Issue) (hg : parse_u64 p.discord_guild_id = none) :
    syncOpenPass p w issues = (w, []) := by
  induction issues with
  | nil => rfl
  | cons issue rest ih =>
    cases hx : extract_thread_id issue.title with
    | none => rw [syncOpenPass_cons_none p w issue rest hx]; exact ih
    | some tid =>
      rw [syncOpenPass_cons_some p w issue rest tid hx]
      have h1 : syncOpenIssue p w tid = (w, [], Except.error ()) := by
        simp [syncOpenIssue, hg]
      rw [h1, ih]
      rfl

theorem syncDiscordThreads_guild_fail (p : Project) (w : World)
    (ids : List Nat) (hg : parse_u64 p.discord_guild_id = none) :
    syncDiscordThreads p w ids = (w, [], Except.error ()) := by
  simp [syncDiscordThreads, hg]

theorem syncDiscordThreads_forum_fail (p : Project) (w : World)
    (ids : List Nat) (g : Nat) (hg : parse_u64 p.discord_guild_id = some g)
    (hf : parse_u64 p.discord_forum_id = none) :
    syncDiscordThreads p w ids = (w, [], Except.error ()) := by
  simp [syncDiscordThreads, hg, hf]

theorem syncDiscordThreads_eq (p : Project) (w : World) (ids : List Nat)
    (g f : Nat) (hg : parse_u64 p.discord_guild_id = some g)
    (hf : parse_u64 p.discord_forum_id = some f)
    (ha : w.fail.activeFail = false) :
    syncDiscordThreads p w ids = sweepGo f ids w w.activeThreads := by
  simp [syncDiscordThreads, hg, hf, ha]

theorem searchOpenIssues_congr (w1 w2 : World)
    (h : w1.openIssues = w2.openIssues) :
    searchOpenIssues w1 = searchOpenIssues w2 := by
  rw [searchOpenIssues, searchOpenIssues, h]

theorem openIdsOf_congr (w1 w2 : World) (h : w1.openIssues = w2.openIssues) :
    openIdsOf w1 = openIdsOf w2 := by
  rw [openIdsOf, openIdsOf, searchOpenIssues_congr w1 w2 h]

theorem sweepDecision_archived (w : World) (f : Nat) (ids : List Nat)
    (t : ThreadRec) (h : t.isArchived = true) :
    sweepDecision w f ids t = none := by
  simp [sweepDecision, h]

/-! ## Event-filter accounting and sweep failure outcomes -/

theorem filter_events_nil (q : Event → Bool) (l : List Event)
    (h : ∀ e ∈ l, q e = false) : l.filter q = [] := by
  induction l with
  | nil => rfl
  | cons e es ih =>
    rw [List.filter_cons, h e (List.mem_cons_self e es), if_neg (by simp)]
    exact ih fun x hx => h x (List.mem_cons_of_mem e hx)

/-- If the Reopen guard rejects `tid` at the pass's start, no call of the
pass targets `tid`. -/
theorem syncOpenPass_filter_none (p : Project) (issues : List Issue)
    (w : World) (tid : Nat) (hd : reopenDecision w tid = false) :
    ((syncOpenPass p w issues).2).filter (fun e => e.threadId == tid) =
      [] := by
  induction issues generalizing w with
  | nil => rfl
  | cons issue rest ih =>
    cases hx : extract_thread_id issue.title with
    | none =>
      rw [syncOpenPass_cons_none p w issue rest hx]
      exact ih w hd
    | some tid0 =>
      rw [syncOpenPass_cons_some p w issue rest tid0 hx]
      by_cases htid : tid0 = tid
      · subst htid
        obtain ⟨h1, h2⟩ := syncOpenIssue_noop p w tid0 hd
        rw [h2, h1]
        simp only [List.nil_append]
        exact ih w hd
      · obtain ⟨hw1, hsh1⟩ := syncOpenIssue_shape p w tid0
        have hne : ∀ e ∈ (syncOpenIssue p w tid0).2.1, e.threadId ≠ tid := by
          intro e hme
          rcases hsh1 e hme with rfl | rfl <;> exact htid
        have hd2 : reopenDecision (syncOpenIssue p w tid0).1 tid = false := by
          rw [hw1, foldl_reopenDecision_other _ _ _ hne]
          exact hd
        rw [List.filter_append, ih _ hd2,
          filter_events_nil _ _ fun e hme => beq_false_of_ne (hne e hme)]
        rfl

/-- When the Reopen guard accepts `tid` and its transport is healthy, the
first ticket decoding to `tid` performs the Reopen pair and every later
such ticket finds the guard rejecting: the pass's calls targeting `tid`
are exactly one send followed by one edit. -/
theorem syncOpenPass_filter_acts (p : Project) (issues : List Issue)
    (w : World) (tid g : Nat)
    (hg : parse_u64 p.discord_guild_id = some g)
    (hex : ∃ i ∈ issues, extract_thread_id i.title = some tid)
    (hd : reopenDecision w tid = true)
    (hs : w.fail.sendFail tid = false) (he : w.fail.editFail tid = false) :
    ((syncOpenPass p w issues).2).filter (fun e => e.threadId == tid) =
      [Event.send tid MSG_ISSUE_REOPENED, Event.edit tid false false] := by
  induction issues generalizing w with
  | nil => obtain ⟨i, hi, -⟩ := hex; exact absurd hi (by simp)
  | cons issue rest ih =>
    cases hx : extract_thread_id issue.title with
    | none =>
      rw [syncOpenPass_cons_none p w issue rest hx]
      obtain ⟨i, hi, hxi⟩ := hex
      rcases List.mem_cons.mp hi with rfl | hi2
      · rw [hx] at hxi; exact absurd hxi (by simp)
      · exact ih w ⟨i, hi2, hxi⟩ hd hs he
    | some tid0 =>
      rw [syncOpenPass_cons_some p w issue rest tid0 hx]
      by_cases htid : tid0 = tid
      · subst htid
        simp only [syncOpenIssue_act p w tid0 g hg hd hs he]
        rw [List.filter_append,
          syncOpenPass_filter_none p rest _ tid0
            (reopenDecision_edit_ff _ tid0),
          List.append_nil]
        simp [List.filter_cons, Event.threadId]
      · obtain ⟨hw1, hsh1⟩ := syncOpenIssue_shape p w tid0
        have hne : ∀ e ∈ (syncOpenIssue p w tid0).2.1, e.threadId ≠ tid := by
          intro e hme
          rcases hsh1 e hme with rfl | rfl <;> exact htid
        have hd2 : reopenDecision (syncOpenIssue p w tid0).1 tid = true := by
          rw [hw1, foldl_reopenDecision_other _ _ _ hne]
          exact hd
        have hfail2 : (syncOpenIssue p w tid0).1.fail = w.fail := by
          rw [hw1, foldl_applyEvent_fail]
        obtain ⟨i, hi, hxi⟩ := hex
        have hi2 : i ∈ rest := by
          rcases List.mem_cons.mp hi with rfl | hi2
          · rw [hx] at hxi
            injection hxi with hxi2
            exact absurd hxi2 htid
          · exact hi2
        rw [List.filter_append,
          filter_events_nil _ _ (fun e hme => beq_false_of_ne (hne e hme)),
          List.nil_append]
        exact ih _ ⟨i, hi2, hxi⟩ hd2 (by rw [hfail2]; exact hs)
          (by rw [hfail2]; exact he)

/-- A ticket-lookup failure inside the sweep body is caught: no call, no
mutation, and an `Ok` that lets the loop continue. -/
theorem sweepThread_issueFail (w : World) (f : Nat) (ids : List Nat)
    (t : ThreadRec) (url seg : List Char) (n : Nat)
    (hm : w.fail.msgsFail t.id = false)
    (hscan : scanMessages (w.msgs t.id) = some url)
    (hlast : (splitSlash url).getLast? = some seg)
    (hparse : parse_u64 seg = some n)
    (hif : w.fail.issueFail n = true) :
    sweepThread w f ids t = (w, [], Except.ok ()) := by
  by_cases h1 : t.parent_id = some f
  · by_cases h2 : (THREAD_PREFIXES.any fun pre => pre.isPrefixOf t.name) = true
    · by_cases h3 : (t.isArchived || t.isLocked) = true
      · simp [sweepThread, h1, h2, h3]
      · by_cases h4 : t.id ∈ ids
        · simp [sweepThread, h1, h2, h3, h4]
        · simp [sweepThread, h1, h2, h3, h4, hm, hscan, hlast, hparse, hif]
    · simp [sweepThread, h1, h2]
  · simp [sweepThread, h1]

/-- A message-window fetch failure propagates out of the body: no call, no
mutation, the error returned. -/
theorem sweepThread_msgsFail (w : World) (f : Nat) (ids : List Nat)
    (t : ThreadRec)
    (h1 : t.parent_id = some f)
    (h2 : (THREAD_PREFIXES.any fun pre => pre.isPrefixOf t.name) = true)
    (h3 : (t.isArchived || t.isLocked) = false)
    (h4 : t.id ∉ ids)
    (hm : w.fail.msgsFail t.id = true) :
    sweepThread w f ids t = (w, [], Except.error ()) := by
  simp [sweepThread, h1, h2, h3, h4, hm]

/-- A send failure on a discovered closed ticket propagates with no call
made. -/
theorem sweepThread_sendFail (w : World) (f : Nat) (ids : List Nat)
    (t : ThreadRec) (url seg : List Char) (n : Nat)
    (h1 : t.parent_id = some f)
    (h2 : (THREAD_PREFIXES.any fun pre => pre.isPrefixOf t.name) = true)
    (h3 : (t.isArchived || t.isLocked) = false)
    (h4 : t.id ∉ ids)
    (hm : w.fail.msgsFail t.id = false)
    (hscan : scanMessages (w.msgs t.id) = some url)
    (hlast : (splitSlash url).getLast? = some seg)
    (hparse : parse_u64 seg = some n)
    (hif : w.fail.issueFail n = false)
    (hcl : w.issueState n = IssueState.closed)
    (hs : w.fail.sendFail t.id = true) :
    sweepThread w f ids t = (w, [], Except.error ()) := by
  simp [sweepThread, h1, h2, h3, h4, hm, hscan, hlast, hparse, hif, hcl, hs]

/-- An edit failure after a successful send propagates with the
notification already sent. -/
theorem sweepThread_editFail (w : World) (f : Nat) (ids : List Nat)
    (t : ThreadRec) (url seg : List Char) (n : Nat)
    (h1 : t.parent_id = some f)
    (h2 : (THREAD_PREFIXES.any fun pre => pre.isPrefixOf t.name) = true)
    (h3 : (t.isArchived || t.isLocked) = false)
    (h4 : t.id ∉ ids)
    (hm : w.fail.msgsFail t.id = false)
    (hscan : scanMessages (w.msgs t.id) = some url)
    (hlast : (splitSlash url).getLast? = some seg)
    (hparse : parse_u64 seg = some n)
    (hif : w.fail.issueFail n = false)
    (hcl : w.issueState n = IssueState.closed)
    (hs : w.fail.sendFail t.id = false)
    (he : w.fail.editFail t.id = true) :
    sweepThread w f ids t =
      (applyEvent w (Event.send t.id MSG_ISSUE_CLOSED),
        [Event.send t.id MSG_ISSUE_CLOSED], Except.error ()) := by
  simp [sweepThread, h1, h2, h3, h4, hm, hscan, hlast, hparse, hif, hcl,
    hs, he]

/-- A body that returns a call-free `Ok` on the unchanged world drops out
of the loop entirely. -/
theorem sweepGo_skip (f : Nat) (ids : List Nat) (w : World) (t : ThreadRec)
    (ts : List ThreadRec)
    (h : sweepThread w f ids t = (w, [], Except.ok ())) :
    sweepGo f ids w (t :: ts) = sweepGo f ids w ts := by
  simp only [sweepGo, h]
  rfl

/-- A body that returns an error aborts the loop: the remaining snapshot
threads are not visited. -/
theorem sweepGo_abort (f : Nat) (ids : List Nat) (w : World) (t : ThreadRec)
    (ts : List ThreadRec) (w1 : World) (es : List Event)
    (h : sweepThread w f ids t = (w1, es, Except.error ())) :
    sweepGo f ids w (t :: ts) = (w1, es, Except.error ()) := by
  simp only [sweepGo, h]

/-! ## C1: Reopen correctness -/

/-- C1: a cycle whose tracker search returns an open issue decoding to
`tid`, where thread `tid` is a locked-or-archived public thread, sends the
fixed reopened notification and then edits the thread to
`locked=false, archived=false`, in that order. -/
theorem reopen_correct (p : Project) (w : World) (issue : Issue)
    (tid g : Nat) (gc : GuildChannel)
    (hg : parse_u64 p.discord_guild_id = some g)
    (hsf : w.fail.searchFail = false)
    (hsend : w.fail.sendFail tid = false)
    (hedit : w.fail.editFail tid = false)
    (hmem : issue ∈ w.openIssues)
    (hx : extract_thread_id issue.title = some tid)
    (hch : w.channels tid = some (some gc))
    (hkind : gc.kind = ChannelKind.publicThread)
    (hla : (gc.isLocked || gc.isArchived) = true) :
    List.Sublist
      [Event.send tid MSG_ISSUE_REOPENED, Event.edit tid false false]
      (syncProject p w).2.1 := by
  have hd : reopenDecision w tid = true := by
    rw [reopenDecision, hch]
    change (if gc.kind = ChannelKind.publicThread
      then gc.isLocked || gc.isArchived else false) = true
    rw [if_pos hkind]
    exact hla
  have hex : ∃ i ∈ searchOpenIssues w, extract_thread_id i.title = some tid :=
    ⟨issue, List.mem_filter.mpr ⟨hmem, by rw [hx]; rfl⟩, hx⟩
  have hpass := syncOpenPass_acts p (searchOpenIssues w) w tid g hg hex hd
    hsend hedit
  rw [syncProject_eq p w hsf]
  exact hpass.trans (List.sublist_append_left _ _)

/-- C1 witness: the Reopen pair is emitted for a concrete locked thread. -/
theorem reopen_correct_witness :
    extract_thread_id issueA.title = some 7 ∧
    (gcLockedArchived.isLocked || gcLockedArchived.isArchived) = true ∧
    List.Sublist [Event.send 7 MSG_ISSUE_REOPENED, Event.edit 7 false false]
      (syncProject projectA wC1).2.1 :=
  ⟨by decide, by decide,
    reopen_correct projectA wC1 issueA 7 1 gcLockedArchived (by decide) rfl
      rfl rfl (by decide) (by decide) rfl rfl (by decide)⟩

/-! ## C2: Close correctness -/

/-- C2: a cycle in which an unlocked, unarchived, prefix-matching forum
thread outside the open-ticket id set discovers a bot notification whose
URL parses to a ticket whose fresh state is Closed sends the fixed closed
notification and then edits the thread to `locked=true, archived=true`, in
that order. -/
theorem close_correct (p : Project) (w : World) (t : ThreadRec)
    (g f n : Nat) (url seg : List Char)
    (hg : parse_u64 p.discord_guild_id = some g)
    (hf : parse_u64 p.discord_forum_id = some f)
    (hfail : w.fail = Failures.noFail)
    (hmem : t ∈ w.activeThreads)
    (hparent : t.parent_id = some f)
    (hpref : (THREAD_PREFIXES.any fun pre => pre.isPrefixOf t.name) = true)
    (hstate : (t.isArchived || t.isLocked) = false)
    (hopen : t.id ∉ openIdsOf w)
    (hscan : scanMessages (w.msgs t.id) = some url)
    (hlast : (splitSlash url).getLast? = some seg)
    (hparse : parse_u64 seg = some n)
    (hclosed : w.issueState n = IssueState.closed) :
    List.Sublist
      [Event.send t.id MSG_ISSUE_CLOSED, Event.edit t.id true true]
      (syncProject p w).2.1 := by
  have hsf : w.fail.searchFail = false := by rw [hfail]; rfl
  obtain ⟨hw1, hsh1⟩ := syncOpenPass_shape p (searchOpenIssues w) w
  have hfail1 : (syncOpenPass p w (searchOpenIssues w)).1.fail =
      Failures.noFail := by
    rw [hw1, foldl_applyEvent_fail]; exact hfail
  have hne : ∀ e ∈ (syncOpenPass p w (searchOpenIssues w)).2,
      e.threadId ≠ t.id := by
    intro e he heq
    obtain ⟨⟨i, hi, hxi⟩, -⟩ := hsh1 e he
    exact hopen (heq ▸ List.mem_filterMap.mpr ⟨i, hi, hxi⟩)
  have hmem1 : t ∈ (syncOpenPass p w (searchOpenIssues w)).1.activeThreads := by
    rw [hw1]
    exact foldl_activeThreads_mem _ w t hmem hne
  have hdw : sweepDecision w f (openIdsOf w) t = some n := by
    simp [sweepDecision, hparent, hpref, hstate, hopen, hscan, hlast,
      hparse, hclosed]
  have hd1 : sweepDecision (syncOpenPass p w (searchOpenIssues w)).1 f
      (openIdsOf w) t = some n := by
    rw [hw1, foldl_applyEvent_sweepDecision]
    exact hdw
  have hsweep := sweepGo_closes f (openIdsOf w)
    (syncOpenPass p w (searchOpenIssues w)).1
    (syncOpenPass p w (searchOpenIssues w)).1.activeThreads t n hfail1 hmem1
    hd1
  rw [syncProject_eq p w hsf,
    syncDiscordThreads_eq p _ (openIdsOf w) g f hg hf
      (by rw [hfail1]; rfl)]
  exact hsweep.trans (List.sublist_append_right _ _)

/-- C2 witness: the Close pair is emitted for a concrete discovered
thread. -/
theorem close_correct_witness :
    scanMessages (wC2.msgs 9) = some "https://github.com/o/r/issues/42".data ∧
    List.Sublist [Event.send 9 MSG_ISSUE_CLOSED, Event.edit 9 true true]
      (syncProject projectA wC2).2.1 :=
  ⟨by decide,
    close_correct projectA wC2 threadA 1 2 42
      "https://github.com/o/r/issues/42".data "42".data (by decide)
      (by decide) rfl (by decide) rfl (by decide) (by decide) (by decide)
      (by decide) (by decide) (by decide) rfl⟩

/-! ## C6: Idempotence -/

/-- C6: with no transport failure, running the reconciler a second time on
the world left by a first cycle produces no corrective call at all: every
OpenLinked thread is already unlocked and unarchived, and every thread the
sweep closed is archived and skipped. -/
theorem sync_idempotent (p : Project) (w : World)
    (hfail : w.fail = Failures.noFail) :
    (syncProject p (syncProject p w).1).2.1 = [] := by
  have hsf : w.fail.searchFail = false := by rw [hfail]; rfl
  obtain ⟨hw1, hsh1⟩ := syncOpenPass_shape p (searchOpenIssues w) w
  have hfail1 : (syncOpenPass p w (searchOpenIssues w)).1.fail =
      Failures.noFail := by
    rw [hw1, foldl_applyEvent_fail]; exact hfail
  have hopen1 : (syncOpenPass p w (searchOpenIssues w)).1.openIssues =
      w.openIssues := by
    rw [hw1, foldl_applyEvent_openIssues]
  rw [syncProject_eq p w hsf]
  cases hgp : parse_u64 p.discord_guild_id with
  | none =>
    rw [syncDiscordThreads_guild_fail p _ (openIdsOf w) hgp]
    have hsf2 : (syncOpenPass p w (searchOpenIssues w)).1.fail.searchFail =
        false := by rw [hfail1]; rfl
    rw [syncProject_eq p _ hsf2,
      syncOpenPass_guild_fail p _ (searchOpenIssues _) hgp,
      syncDiscordThreads_guild_fail p _ _ hgp]
    rfl
  | some g =>
    cases hfp : parse_u64 p.discord_forum_id with
    | none =>
      rw [syncDiscordThreads_forum_fail p _ (openIdsOf w) g hgp hfp]
      have hsf2 : (syncOpenPass p w (searchOpenIssues w)).1.fail.searchFail =
          false := by rw [hfail1]; rfl
      rw [syncProject_eq p _ hsf2]
      rw [searchOpenIssues_congr _ w hopen1]
      rw [syncOpenPass_noop p (searchOpenIssues w) _
        (syncOpenPass_post p (searchOpenIssues w) w g hgp hfail)]
      rw [syncDiscordThreads_forum_fail p _ _ g hgp hfp]
      rfl
    | some f =>
      rw [syncDiscordThreads_eq p _ (openIdsOf w) g f hgp hfp
        (by rw [hfail1]; rfl)]
      obtain ⟨-, hw2, hsh2⟩ := sweepGo_shape f (openIdsOf w)
        (syncOpenPass p w (searchOpenIssues w)).1
        (syncOpenPass p w (searchOpenIssues w)).1.activeThreads hfail1
      have hfail2 : (sweepGo f (openIdsOf w)
          (syncOpenPass p w (searchOpenIssues w)).1
          (syncOpenPass p w (searchOpenIssues w)).1.activeThreads).1.fail =
          Failures.noFail := by
        rw [hw2, foldl_applyEvent_fail]; exact hfail1
      have hopen2 : (sweepGo f (openIdsOf w)
          (syncOpenPass p w (searchOpenIssues w)).1
          (syncOpenPass p w (searchOpenIssues w)).1.activeThreads).1.openIssues
          = w.openIssues := by
        rw [hw2, foldl_applyEvent_openIssues, hopen1]
      have hsf2 : (sweepGo f (openIdsOf w)
          (syncOpenPass p w (searchOpenIssues w)).1
          (syncOpenPass p w
            (searchOpenIssues w)).1.activeThreads).1.fail.searchFail =
          false := by rw [hfail2]; rfl
      rw [syncProject_eq p _ hsf2]
      rw [searchOpenIssues_congr _ w hopen2, openIdsOf_congr _ w hopen2]
      -- The second open pass is a no-op: the first pass left every
      -- extracted id unlocked, and the sweep touched no id of the open set.
      have hnoop2 : ∀ i ∈ searchOpenIssues w, ∀ tid,
          extract_thread_id i.title = some tid →
          reopenDecision (sweepGo f (openIdsOf w)
            (syncOpenPass p w (searchOpenIssues w)).1
            (syncOpenPass p w (searchOpenIssues w)).1.activeThreads).1 tid =
            false := by
        intro i hi tid hx
        have hbase := syncOpenPass_post p (searchOpenIssues w) w g hgp hfail
          i hi tid hx
        have htid : tid ∈ openIdsOf w := List.mem_filterMap.mpr ⟨i, hi, hx⟩
        rw [hw2]
        refine foldl_reopenDecision_false _ _ tid hbase fun e he => ?_
        obtain ⟨hnin, hsh⟩ := hsh2 e he
        rcases hsh with hse | hse
        · exact Or.inl ⟨e.threadId, MSG_ISSUE_CLOSED, hse⟩
        · refine Or.inr (Or.inr fun heq => ?_)
          exact hnin (heq ▸ htid)
      rw [syncOpenPass_noop p (searchOpenIssues w) _ hnoop2]
      -- The second sweep is a no-op: every surviving active-thread row is
      -- either untouched and already rejected, or archived by the first
      -- sweep.
      have hdec2 : ∀ t2 ∈ (sweepGo f (openIdsOf w)
          (syncOpenPass p w (searchOpenIssues w)).1
          (syncOpenPass p w
            (searchOpenIssues w)).1.activeThreads).1.activeThreads,
          sweepDecision (sweepGo f (openIdsOf w)
            (syncOpenPass p w (searchOpenIssues w)).1
            (syncOpenPass p w
              (searchOpenIssues w)).1.activeThreads).1 f (openIdsOf w) t2 =
            none := by
        intro t2 ht2
        have hents := foldl_entries _ _
          (fun e he => by
            rcases (hsh2 e he).2 with hse | hse
            · exact Or.inl ⟨e.threadId, MSG_ISSUE_CLOSED, hse⟩
            · exact Or.inr ⟨e.threadId, hse⟩)
          t2 (hw2 ▸ ht2)
        obtain ⟨t1, hmem1, hid1, hrel1⟩ := hents
        rcases hrel1 with rfl | hmeta
        · rcases sweepGo_post f (openIdsOf w)
            (syncOpenPass p w (searchOpenIssues w)).1
            (syncOpenPass p w (searchOpenIssues w)).1.activeThreads hfail1
            t2 hmem1 with hnone | hedit
          · rw [hw2, foldl_applyEvent_sweepDecision]
            exact hnone
          · have harch := sweepGo_archived f (openIdsOf w)
              (syncOpenPass p w (searchOpenIssues w)).1
              (syncOpenPass p w (searchOpenIssues w)).1.activeThreads t2.id
              hfail1 hedit
            have hmeta2 := harch t2 ht2 rfl
            exact sweepDecision_archived _ f (openIdsOf w) t2
              (by rw [ThreadRec.isArchived, hmeta2]; rfl)
        · exact sweepDecision_archived _ f (openIdsOf w) t2
            (by rw [ThreadRec.isArchived, hmeta]; rfl)
      rw [syncDiscordThreads_eq p _ (openIdsOf w) g f hgp hfp
        (by rw [hfail2]; rfl)]
      rw [sweepGo_noop f (openIdsOf w) _ _ hfail2 hdec2]
      rfl

/-- C6 witness: a second cycle over a concrete corrected world emits
nothing, while the first cycle did act. -/
theorem sync_idempotent_witness :
    (syncProject projectA wC6).2.1 ≠ [] ∧
    (syncProject projectA (syncProject projectA wC6).1).2.1 = [] :=
  ⟨by decide, sync_idempotent projectA wC6 rfl⟩

/-! ## C10: absent thread metadata reads as unlocked and unarchived -/

/-- C10: a channel or active-thread row with no `thread_metadata` is
treated as unlocked and unarchived by both passes: the open-issue pass
performs no Reopen on it, and the close sweep does not skip it — given the
remaining Close conditions it still emits the close pair. -/
theorem metadata_absent_unlocked (p : Project) (w : World) (tid : Nat)
    (gc : GuildChannel) (t : ThreadRec) (f n : Nat) (ids : List Nat)
    (url seg : List Char) :
    (w.channels tid = some (some gc) → gc.thread_metadata = none →
      (syncOpenIssue p w tid).1 = w ∧ (syncOpenIssue p w tid).2.1 = []) ∧
    (t.thread_metadata = none → (t.isArchived || t.isLocked) = false) ∧
    (t.thread_metadata = none → w.fail = Failures.noFail →
      t.parent_id = some f →
      (THREAD_PREFIXES.any fun pre => pre.isPrefixOf t.name) = true →
      t.id ∉ ids →
      scanMessages (w.msgs t.id) = some url →
      (splitSlash url).getLast? = some seg →
      parse_u64 seg = some n →
      w.issueState n = IssueState.closed →
      (sweepThread w f ids t).2.1 =
        [Event.send t.id MSG_ISSUE_CLOSED, Event.edit t.id true true]) := by
  refine ⟨fun hch hmeta => ?_, fun hmeta => ?_, ?_⟩
  · apply syncOpenIssue_noop
    rw [reopenDecision, hch]
    change (if gc.kind = ChannelKind.publicThread
      then gc.isLocked || gc.isArchived else false) = false
    have hl : gc.isLocked = false := by rw [GuildChannel.isLocked, hmeta]; rfl
    have ha : gc.isArchived = false := by
      rw [GuildChannel.isArchived, hmeta]; rfl
    by_cases hk : gc.kind = ChannelKind.publicThread
    · rw [if_pos hk, hl, ha]; rfl
    · rw [if_neg hk]
  · rw [ThreadRec.isArchived, ThreadRec.isLocked, hmeta]; rfl
  · intro hmeta hfail hparent hpre hids hscan hlast hparse hclosed
    have hstate : (t.isArchived || t.isLocked) = false := by
      rw [ThreadRec.isArchived, ThreadRec.isLocked, hmeta]; rfl
    have hdw : sweepDecision w f ids t = some n := by
      simp [sweepDecision, hparent, hpre, hstate, hids, hscan, hlast, hparse,
        hclosed]
    rw [sweepThread_spec w f ids t hfail, hdw]

/-- C10 witness: a concrete metadata-free thread gets no Reopen and is
closed (not skipped) by the sweep. -/
theorem metadata_absent_unlocked_witness :
    ((syncOpenIssue projectA wC10 3).1 = wC10 ∧
      (syncOpenIssue projectA wC10 3).2.1 = []) ∧
    (threadNoMeta.isArchived || threadNoMeta.isLocked) = false ∧
    (sweepThread wC10 2 [] threadNoMeta).2.1 =
      [Event.send 9 MSG_ISSUE_CLOSED, Event.edit 9 true true] :=
  ⟨(metadata_absent_unlocked projectA wC10 3 gcNoMeta threadNoMeta 2 42 []
      "https://github.com/o/r/issues/42".data "42".data).1 rfl rfl,
    (metadata_absent_unlocked projectA wC10 3 gcNoMeta threadNoMeta 2 42 []
      "https://github.com/o/r/issues/42".data "42".data).2.1 rfl,
    (metadata_absent_unlocked projectA wC10 3 gcNoMeta threadNoMeta 2 42 []
      "https://github.com/o/r/issues/42".data "42".data).2.2 rfl rfl rfl
      (by decide) (by decide) (by decide) (by decide) (by decide) rfl⟩

/-- C5 counterexample: two open tickets decode to thread id 5 and the
thread is locked and archived, yet the cycle does make corrective calls
for id 5 — the reconciler has no duplicate-id guard. -/
theorem dup_open_tickets_cex :
    extract_thread_id ("A [5]".data) = some 5 ∧
    extract_thread_id ("B [5]".data) = some 5 ∧
    Event.send 5 MSG_ISSUE_REOPENED ∈ (syncProject projectA wC5).2.1 := by
  refine ⟨by decide, by decide, ?_⟩
  decide

/-- C5 (amended): with two distinct open tickets decoding to the same
locked-or-archived public thread, the reconciler does not treat the id as
indeterminate and does not act twice: the cycle's corrective calls
targeting that thread are exactly one reopened send followed by one
unlocking edit — the first ticket acts, every later ticket finds the
thread already unlocked, and the sweep never targets an open-ticket
id. -/
theorem dup_open_tickets_amended (p : Project) (w : World) (i1 i2 : Issue)
    (tid g : Nat) (gc : GuildChannel)
    (hg : parse_u64 p.discord_guild_id = some g)
    (hfail : w.fail = Failures.noFail)
    (hm1 : i1 ∈ w.openIssues) (hm2 : i2 ∈ w.openIssues) (hne12 : i1 ≠ i2)
    (hx1 : extract_thread_id i1.title = some tid)
    (hx2 : extract_thread_id i2.title = some tid)
    (hch : w.channels tid = some (some gc))
    (hkind : gc.kind = ChannelKind.publicThread)
    (hla : (gc.isLocked || gc.isArchived) = true) :
    ((syncProject p w).2.1).filter (fun e => e.threadId == tid) =
      [Event.send tid MSG_ISSUE_REOPENED, Event.edit tid false false] := by
  have hsf : w.fail.searchFail = false := by rw [hfail]; rfl
  have hd : reopenDecision w tid = true := by
    rw [reopenDecision, hch]
    change (if gc.kind = ChannelKind.publicThread
      then gc.isLocked || gc.isArchived else false) = true
    rw [if_pos hkind]
    exact hla
  have hmemS : i1 ∈ searchOpenIssues w :=
    List.mem_filter.mpr ⟨hm1, by rw [hx1]; rfl⟩
  have hex : ∃ i ∈ searchOpenIssues w, extract_thread_id i.title = some tid :=
    ⟨i1, hmemS, hx1⟩
  have htidIn : tid ∈ openIdsOf w := List.mem_filterMap.mpr ⟨i1, hmemS, hx1⟩
  obtain ⟨hw1, hsh1⟩ := syncOpenPass_shape p (searchOpenIssues w) w
  have hfail1 : (syncOpenPass p w (searchOpenIssues w)).1.fail =
      Failures.noFail := by
    rw [hw1, foldl_applyEvent_fail]; exact hfail
  have hopenflt := syncOpenPass_filter_acts p (searchOpenIssues w) w tid g hg
    hex hd (by rw [hfail]; rfl) (by rw [hfail]; rfl)
  simp only [syncProject_eq p w hsf]
  rw [List.filter_append, hopenflt]
  cases hfp : parse_u64 p.discord_forum_id with
  | none =>
    rw [syncDiscordThreads_forum_fail p _ (openIdsOf w) g hg hfp]
    rfl
  | some f =>
    rw [syncDiscordThreads_eq p _ (openIdsOf w) g f hg hfp
      (by rw [hfail1]; rfl)]
    obtain ⟨-, -, hsh2⟩ := sweepGo_shape f (openIdsOf w)
      (syncOpenPass p w (searchOpenIssues w)).1
      (syncOpenPass p w (searchOpenIssues w)).1.activeThreads hfail1
    rw [filter_events_nil _ _ (fun e hme =>
        beq_false_of_ne fun (heq : e.threadId = tid) =>
          (hsh2 e hme).1 (heq ▸ htidIn)),
      List.append_nil]

/-- C5 witness: the exact single Reopen pair over a concrete world with
two tickets decoding to the locked thread 5. -/
theorem dup_open_tickets_amended_witness :
    ((syncProject projectA wC5).2.1).filter (fun e => e.threadId == 5) =
      [Event.send 5 MSG_ISSUE_REOPENED, Event.edit 5 false false] :=
  dup_open_tickets_amended projectA wC5 ⟨2, "A [5]".data⟩ ⟨3, "B [5]".data⟩
    5 1 gcLockedArchived (by decide) rfl (by decide) (by decide) (by decide)
    (by decide) (by decide) rfl rfl (by decide)

/-- C7 counterexample: a message-window fetch failure on the first sweep
thread aborts the whole sweep — the second thread, which the same cycle
without the failure would close, receives no corrective call. -/
theorem sweep_abort_cex :
    (syncProject projectA wC7c).2.1 = [] ∧
    (syncProject projectA wC7d).2.1 =
      [Event.send 8 MSG_ISSUE_CLOSED, Event.edit 8 true true,
        Event.send 9 MSG_ISSUE_CLOSED, Event.edit 9 true true] := by
  constructor <;> decide

/-- C7 (amended): (1) failures in the open-issue pass are isolated per
issue — an issue whose thread's own send and edit transports succeed gets
its Reopen pair whatever failures other issues hit; (2) a ticket-lookup
failure during the close sweep skips exactly that thread, the loop
continuing unchanged; (3) a message-window fetch failure aborts the
remainder of the sweep with no call made; (4) so does a notification-send
failure on a discovered closed ticket; (5) an edit failure after a
successful send aborts the sweep with the notification already sent;
(6) the sweep's error is caught at project level, the cycle reporting
success; (7) the project loop always continues with the remaining
projects on the world the previous cycle left. -/
theorem failure_isolation_amended :
    (∀ (p : Project) (issues : List Issue) (w : World) (tid g : Nat),
      parse_u64 p.discord_guild_id = some g →
      (∃ i ∈ issues, extract_thread_id i.title = some tid) →
      reopenDecision w tid = true →
      w.fail.sendFail tid = false → w.fail.editFail tid = false →
      List.Sublist
        [Event.send tid MSG_ISSUE_REOPENED, Event.edit tid false false]
        (syncOpenPass p w issues).2) ∧
    (∀ (w : World) (f : Nat) (ids : List Nat) (t : ThreadRec)
      (ts : List ThreadRec) (url seg : List Char) (n : Nat),
      w.fail.msgsFail t.id = false →
      scanMessages (w.msgs t.id) = some url →
      (splitSlash url).getLast? = some seg →
      parse_u64 seg = some n →
      w.fail.issueFail n = true →
      sweepGo f ids w (t :: ts) = sweepGo f ids w ts) ∧
    (∀ (w : World) (f : Nat) (ids : List Nat) (t : ThreadRec)
      (ts : List ThreadRec),
      t.parent_id = some f →
      (THREAD_PREFIXES.any fun pre => pre.isPrefixOf t.name) = true →
      (t.isArchived || t.isLocked) = false →
      t.id ∉ ids →
      w.fail.msgsFail t.id = true →
      sweepGo f ids w (t :: ts) = (w, [], Except.error ())) ∧
    (∀ (w : World) (f : Nat) (ids : List Nat) (t : ThreadRec)
      (ts : List ThreadRec) (url seg : List Char) (n : Nat),
      t.parent_id = some f →
      (THREAD_PREFIXES.any fun pre => pre.isPrefixOf t.name) = true →
      (t.isArchived || t.isLocked) = false →
      t.id ∉ ids →
      w.fail.msgsFail t.id = false →
      scanMessages (w.msgs t.id) = some url →
      (splitSlash url).getLast? = some seg →
      parse_u64 seg = some n →
      w.fail.issueFail n = false →
      w.issueState n = IssueState.closed →
      w.fail.sendFail t.id = true →
      sweepGo f ids w (t :: ts) = (w, [], Except.error ())) ∧
    (∀ (w : World) (f : Nat) (ids : List Nat) (t : ThreadRec)
      (ts : List ThreadRec) (url seg : List Char) (n : Nat),
      t.parent_id = some f →
      (THREAD_PREFIXES.any fun pre => pre.isPrefixOf t.name) = true →
      (t.isArchived || t.isLocked) = false →
      t.id ∉ ids →
      w.fail.msgsFail t.id = false →
      scanMessages (w.msgs t.id) = some url →
      (splitSlash url).getLast? = some seg →
      parse_u64 seg = some n →
      w.fail.issueFail n = false →
      w.issueState n = IssueState.closed →
      w.fail.sendFail t.id = false →
      w.fail.editFail t.id = true →
      sweepGo f ids w (t :: ts) =
        (applyEvent w (Event.send t.id MSG_ISSUE_CLOSED),
          [Event.send t.id MSG_ISSUE_CLOSED], Except.error ())) ∧
    (∀ (p : Project) (w : World), w.fail.searchFail = false →
      (syncProject p w).2.2 = Except.ok ()) ∧
    (∀ (w : World) (p1 : Project) (ps : List Project),
      syncAllProjects w (p1 :: ps) =
        ((syncAllProjects (syncProject p1 w).1 ps).1,
          (syncProject p1 w).2.1 ++
            (syncAllProjects (syncProject p1 w).1 ps).2)) := by
  refine ⟨fun p issues w tid g hg hex hd hs he =>
      syncOpenPass_acts p issues w tid g hg hex hd hs he,
    fun w f ids t ts url seg n hm hscan hlast hparse hif =>
      sweepGo_skip f ids w t ts
        (sweepThread_issueFail w f ids t url seg n hm hscan hlast hparse
          hif),
    fun w f ids t ts h1 h2 h3 h4 hm =>
      sweepGo_abort f ids w t ts w []
        (sweepThread_msgsFail w f ids t h1 h2 h3 h4 hm),
    fun w f ids t ts url seg n h1 h2 h3 h4 hm hscan hlast hparse hif hcl
        hs =>
      sweepGo_abort f ids w t ts w []
        (sweepThread_sendFail w f ids t url seg n h1 h2 h3 h4 hm hscan
          hlast hparse hif hcl hs),
    fun w f ids t ts url seg n h1 h2 h3 h4 hm hscan hlast hparse hif hcl
        hs he =>
      sweepGo_abort f ids w t ts _ _
        (sweepThread_editFail w f ids t url seg n h1 h2 h3 h4 hm hscan
          hlast hparse hif hcl hs he),
    fun p w hsf => by simp [syncProject, hsf],
    fun w p1 ps => rfl⟩

/-- C7 witness: each conjunct at a concrete world — the healthy issue 6
reopened beside the send-failing issue 5; the lookup-failing thread 8
skipped with thread 9 still swept; fetch, send and edit failures at
thread 8 each aborting the sweep; the failed cycle reporting success; and
the loop unfolding past a first project whose sweep failed. -/
theorem failure_isolation_amended_witness :
    List.Sublist [Event.send 6 MSG_ISSUE_REOPENED, Event.edit 6 false false]
      (syncOpenPass projectA wC7a wC7a.openIssues).2 ∧
    sweepGo 2 [] wC7b [threadB, threadA] = sweepGo 2 [] wC7b [threadA] ∧
    sweepGo 2 [] wC7c [threadB, threadA] = (wC7c, [], Except.error ()) ∧
    sweepGo 2 [] wC7e [threadB, threadA] = (wC7e, [], Except.error ()) ∧
    sweepGo 2 [] wC7f [threadB, threadA] =
      (applyEvent wC7f (Event.send 8 MSG_ISSUE_CLOSED),
        [Event.send 8 MSG_ISSUE_CLOSED], Except.error ()) ∧
    (syncProject projectA wC7c).2.2 = Except.ok () ∧
    syncAllProjects wC7c [projectA, projectA] =
      ((syncAllProjects (syncProject projectA wC7c).1 [projectA]).1,
        (syncProject projectA wC7c).2.1 ++
          (syncAllProjects (syncProject projectA wC7c).1 [projectA]).2) :=
  ⟨failure_isolation_amended.1 projectA wC7a.openIssues wC7a 6 1 (by decide)
      ⟨⟨2, "B [6]".data⟩, by decide, by decide⟩ (by decide) rfl rfl,
    failure_isolation_amended.2.1 wC7b 2 [] threadB [threadA]
      "https://github.com/o/r/issues/41".data "41".data 41 rfl (by decide)
      (by decide) (by decide) rfl,
    failure_isolation_amended.2.2.1 wC7c 2 [] threadB [threadA] rfl
      (by decide) (by decide) (by decide) rfl,
    failure_isolation_amended.2.2.2.1 wC7e 2 [] threadB [threadA]
      "https://github.com/o/r/issues/41".data "41".data 41 rfl (by decide)
      (by decide) (by decide) rfl (by decide) (by decide) (by decide) rfl
      rfl rfl,
    failure_isolation_amended.2.2.2.2.1 wC7f 2 [] threadB [threadA]
      "https://github.com/o/r/issues/41".data "41".data 41 rfl (by decide)
      (by decide) (by decide) rfl (by decide) (by decide) (by decide) rfl
      rfl rfl rfl,
    failure_isolation_amended.2.2.2.2.2.1 projectA wC7c rfl,
    failure_isolation_amended.2.2.2.2.2.2 wC7c projectA [projectA]⟩

/-- C8 counterexample: a `[FEEDBACK]` thread carries none of the
configuration's `thread_prefixes` (default set), yet the sweep recognizes
it and applies a corrective Close — recognition does not come from the
sync configuration. -/
theorem config_prefixes_cex :
    (default_sync_prefixes.any fun pre => pre.isPrefixOf threadF.name) =
      false ∧
    (syncProject projectA wC8).2.1 =
      [Event.send 9 MSG_ISSUE_CLOSED, Event.edit 9 true true] := by
  constructor <;> decide

/-- C8 amended: the sweep recognizes managed threads by the fixed constant
set `THREAD_PREFIXES` (which includes `[FEEDBACK]`), not by the sync
configuration's `thread_prefixes`; a thread whose name starts with no
constant marker receives no discovery attempt and no corrective call. -/
theorem sweep_prefix_amended :
    (∀ (w : World) (f : Nat) (ids : List Nat) (t : ThreadRec),
      t.parent_id = some f →
      (THREAD_PREFIXES.any fun pre => pre.isPrefixOf t.name) = false →
      sweepThread w f ids t = (w, [], Except.ok ())) ∧
    (THREAD_PREFIXES.any fun pre => pre.isPrefixOf threadF.name) = true ∧
    (syncProject projectA wC8).2.1 =
      [Event.send 9 MSG_ISSUE_CLOSED, Event.edit 9 true true] := by
  refine ⟨fun w f ids t hparent hpre => ?_, by decide, by decide⟩
  simp [sweepThread, hparent, hpre]

/-- C8 witness: a thread without a constant marker is skipped entirely. -/
theorem sweep_prefix_amended_witness :
    sweepThread wC8 2 [] threadPlain = (wC8, [], Except.ok ()) :=
  sweep_prefix_amended.1 wC8 2 [] threadPlain rfl (by decide)

/-! ## C9: sync configuration defaults -/

/-- C9 counterexample: with the `sync` section omitted the polling
interval defaults to 10 seconds, not 60. -/
theorem sync_interval_default_cex :
    ¬ (Config.sync_config ⟨none⟩).interval_seconds = 60 := by
  decide

/-- C9 amended: omitting the `sync` section, or the individual fields,
yields `enabled = true`, `interval_seconds = 10` (the source's default,
not 60) and the default prefix list. -/
theorem sync_interval_default_amended :
    (∀ c : Config, c.sync = none →
      c.sync_config = ⟨true, 10, default_sync_prefixes⟩) ∧
    (∀ r : SyncConfigRaw, r.interval_seconds = none →
      (SyncConfig.ofRaw r).interval_seconds = 10) ∧
    (∀ r : SyncConfigRaw, r.enabled = none →
      (SyncConfig.ofRaw r).enabled = true) := by
  refine ⟨fun c hc => ?_, fun r hr => ?_, fun r hr => ?_⟩
  · rw [Config.sync_config, hc]; rfl
  · simp [SyncConfig.ofRaw, hr, default_sync_interval]
  · simp [SyncConfig.ofRaw, hr, default_sync_enabled]

/-- C9 witness: the defaults at the two concrete omission shapes. -/
theorem sync_interval_default_witness :
    Config.sync_config ⟨none⟩ = ⟨true, 10, default_sync_prefixes⟩ ∧
    (SyncConfig.ofRaw ⟨none, none, none⟩).interval_seconds = 10 ∧
    (SyncConfig.ofRaw ⟨none, none, none⟩).enabled = true :=
  ⟨sync_interval_default_amended.1 ⟨none⟩ rfl,
    sync_interval_default_amended.2.1 ⟨none, none, none⟩ rfl,
    sync_interval_default_amended.2.2 ⟨none, none, none⟩ rfl⟩

/-! Sanity checks of the codec on the source's own unit tests. -/

example : extract_thread_id "Bug with login [1234567890]".data = some 1234567890 := by decide

example : extract_thread_id "Feature request [9876543210]".data = some 9876543210 := by decide

example : extract_thread_id "No thread ID here".data = none := by decide

example : extract_thread_id "[not-a-number]".data = none := by decide

example : encodeTitle "Hi".data 120 = "Hi [120]".data := by
  show "Hi".data ++ ' ' :: '[' :: (natToDigits 120 ++ [']']) = "Hi [120]".data
  rw [natToDigits, natToDigits, natToDigits]
  norm_num
  refine ⟨by decide, by decide, by decide⟩
